/-
Verification of the book-fair point-of-sale bot (bot.py / sheets_handler.py)
against its natural-language specification.

The Python source is shallowly embedded: its pure cart/pricing logic becomes
Lean functions, the per-session mutable state (cart, author_payments) becomes
an explicit `SessionState` threaded through the operations, and the remote
spreadsheet gateway becomes functions parameterised by the backend's
responses (present/absent handle, success/raise of each remote call).
Machine integers are modelled as `Int` (prices and ids in the sheet are
whole numbers); Python's stable `sorted`/`list.sort` becomes a stable
insertion sort.
-/
import Mathlib

namespace BookFair

/-- A catalog product row, as returned by the Products worksheet
(`get_all_records`). Missing fields default to `0` / `""` exactly as the
Python `dict.get` defaults do. -/
structure Product where
  productID : Int
  authorID : Int
  title : String
  price : Int
  discount : Int
  promotion : String
  deriving Repr, DecidableEq

/-- A cart entry: a snapshot copy of a product dict (`product.copy()` in
`add_to_cart` / `add_lottery_to_cart`) plus the keys the cart code may add:
`DiscountApplied` (only set on the manual-discount path) and `IsLottery`
(only set by the lottery path; reading it elsewhere defaults to `False`). -/
structure CartItem where
  productID : Int
  authorID : Int
  title : String
  price : Int
  discount : Int
  promotion : String
  isLottery : Bool
  discountApplied : Option Int
  deriving Repr, DecidableEq

/-- Python `str.strip()` on the underlying character list: drop whitespace
from both ends. -/
def pyStrip (l : List Char) : List Char :=
  ((l.dropWhile Char.isWhitespace).reverse.dropWhile Char.isWhitespace).reverse

/-- Python `str.lower()` (ASCII range, which is all the promotion tags
use). -/
def pyLower (l : List Char) : List Char :=
  l.map Char.toLower

/-- `product.get('Promotion', '').strip().lower() == '3for2'` from
`calculate_cart_with_promotions`, expressed on the string's character
list. -/
def isBundleTag (s : String) : Bool :=
  pyLower (pyStrip s.data) == "3for2".data

/-- The partitioning loop of `calculate_cart_with_promotions`: each cart
product is appended to the lottery list when `IsLottery` is set, else to the
promotion list when its promotion tag is `3for2`, else to the regular list;
the relative order inside each list is the cart order. -/
def partitionCart : List CartItem → List CartItem × List CartItem × List CartItem
  | [] => ([], [], [])
  | p :: rest =>
    let (lot, promo, reg) := partitionCart rest
    if p.isLottery then (p :: lot, promo, reg)
    else if isBundleTag p.promotion then (lot, p :: promo, reg)
    else (lot, promo, p :: reg)

/-- Sum of `product.get('Price', 0)` over a list of cart items. -/
def sumPrices (l : List CartItem) : Int :=
  (l.map (·.price)).sum

/-- One insertion step of a stable descending sort with strict-less test
`lt`: `x` is inserted into the already-sorted list of elements that came
*after* it, passing over those with strictly larger key and stopping before
the first element of smaller-or-equal key — so equal-key elements keep
their original relative order, as Python's stable `sorted(...,
reverse=True)` / `list.sort(..., reverse=True)` do. -/
def insertDescBy (lt : α → α → Bool) (x : α) : List α → List α
  | [] => [x]
  | y :: ys => if lt x y then y :: insertDescBy lt x ys else x :: y :: ys

/-- Stable descending sort by the strict-less test `lt`. -/
def sortDescBy (lt : α → α → Bool) : List α → List α
  | [] => []
  | x :: xs => insertDescBy lt x (sortDescBy lt xs)

/-- The key comparison of
`sorted(promotion_products, key=lambda p: p.get('Price', 0), reverse=True)`. -/
def priceLt (a b : CartItem) : Bool :=
  a.price < b.price

/-- Stable sort of the promotion products by price, descending. -/
def sortDesc : List CartItem → List CartItem :=
  sortDescBy priceLt

/-- The slicing loop `for i in range(0, len(sorted_promo), 3)`:
consecutive chunks of three, the last chunk possibly shorter. -/
def chunks3 : List CartItem → List (List CartItem)
  | [] => []
  | [a] => [[a]]
  | [a, b] => [[a, b]]
  | a :: b :: c :: rest => [a, b, c] :: chunks3 rest

/-- Python `min` over a nonempty list of numbers (the empty case is
unreachable in the source: `min(group_prices)` runs only for groups of 3). -/
def listMin : List Int → Int
  | [] => 0
  | x :: xs => xs.foldl min x

/-- Python `min(group, key=lambda p: p.get('Price', 0))`: the first element
whose price is minimal (a later element replaces the current best only when
its key is strictly smaller). -/
def minByPrice : CartItem → List CartItem → CartItem
  | x, [] => x
  | x, y :: ys => if y.price < x.price then minByPrice y ys else minByPrice x ys

instance : Inhabited CartItem :=
  ⟨⟨0, 0, "", 0, 0, "", false, none⟩⟩

/-- A `promotion_discounts` entry:
`{'product': ..., 'discount_amount': ..., 'reason': '3 за 2'}`. -/
structure DiscountInfo where
  product : CartItem
  discount_amount : Int
  reason : String
  deriving Repr, DecidableEq

/-- The per-group body of the promotion loop: a full group of 3 pays the sum
minus its cheapest price and records a discount attribution for the
(first) cheapest product; an incomplete group pays full price. The groups
are processed left to right and their discount records concatenated in
order. -/
def processGroups : List (List CartItem) → Int × List DiscountInfo
  | [] => (0, [])
  | g :: gs =>
    let (t, ds) := processGroups gs
    if g.length = 3 then
      let cheapest_price := listMin (g.map (·.price))
      let cheapest_product := minByPrice (g.headI) (g.tail)
      (sumPrices g - cheapest_price + t,
       ⟨cheapest_product, cheapest_price, "3 за 2"⟩ :: ds)
    else
      (sumPrices g + t, ds)

/-- `calculate_cart_with_promotions(cart)` from bot.py: partitions the cart
into lottery / `3for2` / regular items, sums the first and last directly,
sorts the promotion items by price descending (stable), slices them into
groups of three, charges each full group for all but its cheapest member,
and returns the grand total together with the discount attributions. -/
def calculate_cart_with_promotions (cart : List CartItem) : Int × List DiscountInfo :=
  if cart.isEmpty then (0, [])
  else
    let (lottery_products, promotion_products, regular_products) := partitionCart cart
    let lottery_total := sumPrices lottery_products
    let regular_total := sumPrices regular_products
    let sorted_promo := sortDesc promotion_products
    let (promotion_total, promotion_discounts) := processGroups (chunks3 sorted_promo)
    (lottery_total + regular_total + promotion_total, promotion_discounts)

/-! ## Cart & checkout state machine (bot.py session operations)

`context.user_data['cart']` and `context.user_data['author_payments']`
become an explicit `SessionState`. `author_payments` maps `str(author_id)`
to `True` (the only value ever stored, and `int ∘ str` is the identity on
the integer ids), so it is modelled as the list of paid author ids in
insertion order, inserted without duplicates as dict assignment does. -/

/-- An Authors-worksheet row (only the fields the checkout code reads). -/
structure Author where
  authorID : Int
  name : String
  deriving Repr, DecidableEq

/-- Per-session mutable state: the cart and the per-author paid flags. -/
structure SessionState where
  cart : List CartItem
  payments : List Int
  deriving Repr, DecidableEq

/-- `context.user_data['author_payments'][str(author_id)] = True`: a dict
key assignment — a fresh key is appended, an existing key keeps its
position. -/
def pyInsert (aid : Int) (l : List Int) : List Int :=
  if aid ∈ l then l else l ++ [aid]

/-- The product snapshot built by `add_to_cart`: `product.copy()`, then on
the discount path (`with_discount` and `Discount > 0`; for integers the
Python guard `discount and discount > 0` is just `discount > 0`) the copy's
`Price` becomes `max(0, Price − Discount)` and `DiscountApplied` is set. -/
def mkCartProduct (p : Product) (withDiscount : Bool) : CartItem :=
  let base : CartItem :=
    ⟨p.productID, p.authorID, p.title, p.price, p.discount, p.promotion, false, none⟩
  if withDiscount ∧ p.discount > 0 then
    { base with price := max 0 (p.price - p.discount), discountApplied := some p.discount }
  else base

/-- `add_to_cart(query, context, product_id, with_discount)`: looks the
product up in the assembled catalog (first match on `ProductID`); if found,
appends the snapshot to the cart, otherwise leaves the cart unchanged (the
source only shows an error message in that case). -/
def add_to_cart (catalog : List Product) (pid : Int) (withDiscount : Bool)
    (cart : List CartItem) : List CartItem :=
  match catalog.find? (fun p => p.productID == pid) with
  | none => cart
  | some p => cart ++ [mkCartProduct p withDiscount]

/-- The lottery snapshot built by `add_lottery_to_cart`: `product.copy()`
with `Price = 200` and `IsLottery = True`, unconditionally. -/
def mkLotteryProduct (p : Product) : CartItem :=
  ⟨p.productID, p.authorID, p.title, 200, p.discount, p.promotion, true, none⟩

/-- `add_lottery_to_cart(query, context, product_id)`: looks the product up
in `get_all_products()`; if found, appends the fixed-price lottery snapshot
to the cart, else leaves the cart unchanged. -/
def add_lottery_to_cart (catalog : List Product) (pid : Int)
    (cart : List CartItem) : List CartItem :=
  match catalog.find? (fun p => p.productID == pid) with
  | none => cart
  | some p => cart ++ [mkLotteryProduct p]

/-- `clear_cart`: `user_data['cart'] = []` and
`user_data['author_payments'] = {}` in the same handler. -/
def clear_cart (_s : SessionState) : SessionState :=
  ⟨[], []⟩

/-- Outcome summary of a transaction-recording loop: the
`record_transaction` calls issued (product id and amount, in order) and the
success / failure tallies. -/
structure PaymentResult where
  issued : List (Int × Int)
  successCount : Nat
  failureCount : Nat
  deriving Repr, DecidableEq

/-- The per-item recording loop shared by both confirm paths: each product
is charged `0` when its `ProductID` is a key of `promo_discount_map`, else
its stored price; one `record_transaction` call is issued per product, and
the outcome of the `i`-th call (modelled by `ok i`) only affects the
tallies, never whether the remaining items are attempted. -/
def recordLoop (ok : Nat → Bool) (freeIds : List Int) :
    List CartItem → Nat → List (Int × Int) × Nat × Nat
  | [], _ => ([], 0, 0)
  | p :: rest, i =>
    let price : Int := if p.productID ∈ freeIds then 0 else p.price
    let (calls, s, f) := recordLoop ok freeIds rest (i + 1)
    ((p.productID, price) :: calls,
     (if ok i then s + 1 else s),
     (if ok i then f else f + 1))

/-- `confirm_payment(query, context, payment_method)`: aborts on an empty
cart; otherwise records one transaction per cart item (zero-priced when the
item's product id is in the promotion-discount map of the whole cart) and
then sets `user_data['cart'] = []` — the source never touches
`author_payments` on this path. -/
def confirm_payment (ok : Nat → Bool) (s : SessionState) :
    SessionState × Option PaymentResult :=
  if s.cart.isEmpty then (s, none)
  else
    let (_, promotion_discounts) := calculate_cart_with_promotions s.cart
    let freeIds := promotion_discounts.map (·.product.productID)
    let (issued, succ, fail) := recordLoop ok freeIds s.cart 0
    (⟨[], s.payments⟩, some ⟨issued, succ, fail⟩)

/-- `confirm_author_payment(query, context, author_id, payment_method)`:
aborts (no side effect) when the author has no cart items or is not found
in `get_authors()`; otherwise re-prices only that author's items, records
one transaction per such item (partial failures only counted), marks the
author paid, and — when every author id present in the cart is now marked
paid — resets both the cart and the payment map to empty. -/
def confirm_author_payment (authors : List Author) (ok : Nat → Bool)
    (aid : Int) (s : SessionState) : SessionState × Option PaymentResult :=
  let author_products := s.cart.filter (fun p => p.authorID == aid)
  if author_products.isEmpty then (s, none)
  else
    match authors.find? (fun a => a.authorID == aid) with
    | none => (s, none)
    | some _ =>
      let (_, promotion_discounts) := calculate_cart_with_promotions author_products
      let freeIds := promotion_discounts.map (·.product.productID)
      let (issued, succ, fail) := recordLoop ok freeIds author_products 0
      let payments' := pyInsert aid s.payments
      if s.cart.all (fun p => p.authorID ∈ payments') then
        (⟨[], []⟩, some ⟨issued, succ, fail⟩)
      else
        (⟨s.cart, payments'⟩, some ⟨issued, succ, fail⟩)

/-- Session states reachable from a fresh session (`user_data` holds no
cart: reads default to `[]` / `{}`) through the five operations that touch
the cart or the payment map, with arbitrary catalog data, author data and
remote-call outcomes at every step. -/
inductive Reachable : SessionState → Prop
  | init : Reachable ⟨[], []⟩
  | add (catalog : List Product) (pid : Int) (wd : Bool) (s : SessionState) :
      Reachable s → Reachable ⟨add_to_cart catalog pid wd s.cart, s.payments⟩
  | addLottery (catalog : List Product) (pid : Int) (s : SessionState) :
      Reachable s → Reachable ⟨add_lottery_to_cart catalog pid s.cart, s.payments⟩
  | clear (s : SessionState) : Reachable s → Reachable (clear_cart s)
  | confirm (ok : Nat → Bool) (s : SessionState) :
      Reachable s → Reachable (confirm_payment ok s).1
  | confirmAuthor (authors : List Author) (ok : Nat → Bool) (aid : Int)
      (s : SessionState) :
      Reachable s → Reachable (confirm_author_payment authors ok aid s).1

/-- The spec's PaymentState invariant: every author id with a paid flag has
at least one cart item. -/
def paymentInv (s : SessionState) : Prop :=
  ∀ a ∈ s.payments, ∃ it ∈ s.cart, it.authorID = a

/-! ## Remote catalog gateway (sheets_handler.py)

The module-level `spreadsheet` handle is `Option Backend` (`None` when the
connection bootstrap failed). Each remote call either raises or returns,
modelled by an `Except` field of `Backend`; every gateway function wraps
its remote calls in `try/except` returning `[]` / `False`, so the
embeddings are total. The two in-process caches (`_all_products_cache` and
the `with_cache` entry for `get_authors`) become explicit arguments: the
cached value, and whether its TTL check passes at call time. -/

/-- A Transactions-worksheet row. -/
structure Transaction where
  transactionID : Int
  productID : Int
  authorID : Int
  paymentMethod : String
  amount : Int
  timestamp : String
  deriving Repr, DecidableEq

/-- The responses the backing spreadsheet would give to each remote call:
`.error` models the call raising. -/
structure Backend where
  authorsWs : Except String (List Author)
  productsWs : Except String (List Product)
  transactionsWs : Except String (List Transaction)
  appendOk : Except String Unit

/-- The gateway's module-level cache cells, as state:
`_all_products_cache` (with its timestamp check) and the `with_cache` cell
of `get_authors`. `fresh = false` also covers a cleared timestamp. -/
structure CacheState where
  productsCache : Option (List Product)
  productsFresh : Bool
  authorsCache : Option (List Author)
  authorsFresh : Bool

/-- `clear_all_caches()`: empties `_cache` and resets
`_all_products_cache` / `_all_products_cache_time`. -/
def clear_all_caches (_c : CacheState) : CacheState :=
  ⟨none, false, none, false⟩

/-- The fetch part of `get_all_products`: `if not spreadsheet: return []`,
then `spreadsheet.worksheet("Products").get_all_records()` with the
catch-all `except` returning `[]`. -/
def fetchProducts (sp : Option Backend) : List Product :=
  match sp with
  | none => []
  | some b => match b.productsWs with
    | .ok l => l
    | .error _ => []

/-- `get_all_products()`: serves the cached list when the cache is truthy
(a *nonempty* list — Python `if _all_products_cache` is false for `[]`) and
within its 300 s TTL; otherwise fetches, degrading to `[]` when the handle
is absent or the call raises. -/
def get_all_products (sp : Option Backend) (cache : Option (List Product))
    (fresh : Bool) : List Product :=
  match cache with
  | some l => if ¬ l.isEmpty ∧ fresh then l else fetchProducts sp
  | none => fetchProducts sp

/-- The body of `get_authors()`: `if not spreadsheet: return []`, then the
worksheet read with the catch-all `except` returning `[]`. The
`retry_with_backoff` wrapper re-invokes this body on rate-limit errors, but
the body traps every exception itself, so the wrapper always returns the
body's value. -/
def get_authors_body (sp : Option Backend) : List Author :=
  match sp with
  | none => []
  | some b => match b.authorsWs with
    | .ok l => l
    | .error _ => []

/-- `get_authors()` under its `with_cache(ttl=600)` decorator: a cache
entry (any value, including `[]`) within its TTL is served; otherwise the
body runs. -/
def get_authors (sp : Option Backend) (cache : Option (List Author))
    (fresh : Bool) : List Author :=
  match cache with
  | some l => if fresh then l else get_authors_body sp
  | none => get_authors_body sp

/-- `get_products_by_author(author_id)`: a filter over
`get_all_products()`, never a separate remote fetch. -/
def get_products_by_author (sp : Option Backend) (cache : Option (List Product))
    (fresh : Bool) (aid : Int) : List Product :=
  (get_all_products sp cache fresh).filter (fun p => p.authorID == aid)

/-- `record_transaction(...)`: `False` when the handle is absent; the
worksheet lookup plus `get_all_records` (for the next transaction id) and
the `append_row` must all succeed, any exception yielding `False`. -/
def record_transaction (sp : Option Backend) : Bool :=
  match sp with
  | none => false
  | some b =>
    match b.transactionsWs with
    | .error _ => false
    | .ok _ =>
      match b.appendOk with
      | .error _ => false
      | .ok _ => true

/-- Python `s.split(' ')[0]`: the text before the first space (the whole
string when there is none). -/
def pyFirstField (s : String) : String :=
  ⟨s.data.takeWhile (fun c => c ≠ ' ')⟩

/-- Python `s.split(sep)` for a one-character separator. -/
def splitOnChar (c : Char) : List Char → List (List Char)
  | [] => [[]]
  | x :: xs =>
    match splitOnChar c xs with
    | [] => [[]]
    | h :: t => if x = c then [] :: h :: t else (x :: h) :: t

/-- Numeric value of a digit string, most significant first. -/
def digitsToNat (l : List Char) : Nat :=
  l.foldl (fun acc c => 10 * acc + (c.toNat - 48)) 0

/-- Gregorian leap-year rule, as `datetime` validates it. -/
def isLeap (y : Nat) : Bool :=
  (y % 4 == 0 && y % 100 != 0) || y % 400 == 0

/-- Days per month, as `datetime` validates them. -/
def daysInMonth (y m : Nat) : Nat :=
  if m = 2 then (if isLeap y then 29 else 28)
  else if m = 4 ∨ m = 6 ∨ m = 9 ∨ m = 11 then 30
  else 31

/-- The day field of CPython's `_strptime`: `%d` matches
`3[01]|[12]\d|0[1-9]|[1-9]| [1-9]` — one or two digits, or a space
followed by a single nonzero digit. One- and two-digit fields are returned
by value (out-of-range values such as `32`–`99` or `00` fail the later
day-of-month check, exactly where the regex alternatives already fail). -/
def parseDayField : List Char → Option Nat
  | [' ', c] => if c.isDigit && c != '0' then some (c.toNat - 48) else none
  | l =>
    if ¬ l.isEmpty ∧ l.length ≤ 2 ∧ l.all Char.isDigit then
      some (digitsToNat l)
    else none

/-- `datetime.strptime(s, '%Y-%m-%d')` acceptance, as CPython's
`_strptime` defines it: `%Y` is exactly four digits (`\d\d\d\d`), `%m`
one or two digits valued 1–12 (`1[0-2]|0[1-9]|[1-9]`), `%d` one or two
digits or a space plus a nonzero digit, the dashes literal and the whole
string consumed; a successful match still raises `ValueError` when the
year is below `MINYEAR = 1` or the day exceeds the month's length
(Gregorian, leap years included). Digit characters are modelled as the
ASCII digits. `none` models the `ValueError`. -/
def parseDate (s : String) : Option (Nat × Nat × Nat) :=
  match splitOnChar '-' s.data with
  | [ys, ms, ds] =>
    if ys.length = 4 ∧ ys.all Char.isDigit ∧
        ms ≠ [] ∧ ms.length ≤ 2 ∧ ms.all Char.isDigit then
      match parseDayField ds with
      | none => none
      | some d =>
        let y := digitsToNat ys
        let m := digitsToNat ms
        if 1 ≤ y ∧ 1 ≤ m ∧ m ≤ 12 ∧ 1 ≤ d ∧ d ≤ daysInMonth y m then
          some (y, m, d)
        else none
    else none
  | _ => none

/-- `transaction_date >= start_date_obj` on `datetime` values sharing a
midnight time part: lexicographic on (year, month, day). -/
def dateLE (a b : Nat × Nat × Nat) : Bool :=
  a.1 < b.1 ∨ (a.1 = b.1 ∧ (a.2.1 < b.2.1 ∨ (a.2.1 = b.2.1 ∧ a.2.2 ≤ b.2.2)))

/-- `get_transactions_from_date(start_date=None)`: the full ledger when no
start date is given; otherwise the records whose `Timestamp` is truthy
(nonempty) and whose text before the first space parses as `%Y-%m-%d` to a
date on or after the (also successfully parsed) start date — a
`ValueError` from either parse silently drops the record (`continue`).
Handle absence or a raising read degrade to `[]`. -/
def get_transactions_from_date (sp : Option Backend) (start : Option String) :
    List Transaction :=
  match sp with
  | none => []
  | some b =>
    match b.transactionsWs with
    | .error _ => []
    | .ok allTx =>
      match start with
      | none => allTx
      | some sd =>
        allTx.filter (fun t =>
          !t.timestamp.data.isEmpty &&
          (match parseDate (pyFirstField t.timestamp), parseDate sd with
           | some td, some sdd => dateLE sdd td
           | _, _ => false))

/-! ## Reporting aggregator (sheets_handler.py) -/

/-- One row of `get_author_transactions_detail`'s result. -/
structure TransactionDetail where
  timestamp : String
  product_title : String
  amount : Int
  payment_method : String
  transaction_id : Int
  deriving Repr, DecidableEq

/-- Python string `<`: lexicographic comparison of the code-point
sequences. -/
def lexLt : List Char → List Char → Bool
  | [], [] => false
  | [], _ :: _ => true
  | _ :: _, [] => false
  | x :: xs, y :: ys => if x < y then true else if y < x then false else lexLt xs ys

/-- The `product_map` lookup `{p['ProductID']: p for p in all_products}`
followed by `.get(pid, {})`: a dict comprehension keeps the *last*
occurrence of a duplicated key. -/
def lookupLastProduct (ps : List Product) (pid : Int) : Option Product :=
  ps.reverse.find? (fun p => p.productID == pid)

/-- One `transaction_detail` row as built in the loop, with the title
resolved through the product map (`'Продукт #{id}'` when the product is
missing). -/
def detailOf (ps : List Product) (t : Transaction) : TransactionDetail :=
  ⟨t.timestamp,
   (match lookupLastProduct ps t.productID with
    | some p => p.title
    | none => "Продукт #" ++ toString t.productID),
   t.amount, t.paymentMethod, t.transactionID⟩

/-- `get_author_transactions_detail(author_id, start_date=None)`: filters
the (optionally date-filtered) ledger to the author, resolves titles via
the cached full product list, and sorts by the stored timestamp string
descending (`sort(key=..., reverse=True)`, a stable sort comparing the
strings lexicographically). -/
def get_author_transactions_detail (sp : Option Backend)
    (pcache : Option (List Product)) (pfresh : Bool) (aid : Int)
    (start : Option String) : List TransactionDetail :=
  let transactions := get_transactions_from_date sp start
  let all_products := get_all_products sp pcache pfresh
  let rows := (transactions.filter (fun t => t.authorID == aid)).map (detailOf all_products)
  sortDescBy (fun a b => lexLt a.timestamp.data b.timestamp.data) rows

/-- The spec's description of the bundle charge on the (already sorted
descending) price list: of each consecutive full triple the two
higher-priced are charged, leftovers are charged in full. -/
def chargeTwoOfThree : List Int → Int
  | a :: b :: _ :: rest => a + b + chargeTwoOfThree rest
  | l => l.sum

/-- The bundle-eligible class of a cart (tag `3for2`, not lottery). -/
def bundleItems (cart : List CartItem) : List CartItem :=
  cart.filter (fun p => !p.isLottery && isBundleTag p.promotion)

/-- The lottery class of a cart. -/
def lotteryItems (cart : List CartItem) : List CartItem :=
  cart.filter (·.isLottery)

/-- The regular class of a cart (neither lottery nor bundle-tagged). -/
def regularItems (cart : List CartItem) : List CartItem :=
  cart.filter (fun p => !p.isLottery && !isBundleTag p.promotion)

/-- Session states reachable without the whole-cart `confirm_payment`
path: the four remaining cart/payment operations, from a fresh session. -/
inductive ReachableNoWholeCart : SessionState → Prop
  | init : ReachableNoWholeCart ⟨[], []⟩
  | add (catalog : List Product) (pid : Int) (wd : Bool) (s : SessionState) :
      ReachableNoWholeCart s →
      ReachableNoWholeCart ⟨add_to_cart catalog pid wd s.cart, s.payments⟩
  | addLottery (catalog : List Product) (pid : Int) (s : SessionState) :
      ReachableNoWholeCart s →
      ReachableNoWholeCart ⟨add_lottery_to_cart catalog pid s.cart, s.payments⟩
  | clear (s : SessionState) : ReachableNoWholeCart s →
      ReachableNoWholeCart (clear_cart s)
  | confirmAuthor (authors : List Author) (ok : Nat → Bool) (aid : Int)
      (s : SessionState) : ReachableNoWholeCart s →
      ReachableNoWholeCart (confirm_author_payment authors ok aid s).1

/-- A wall-clock stamp as `datetime.now().strftime("%Y-%m-%d %H:%M:%S")`
decomposes it. -/
structure TimeStamp where
  year : Nat
  month : Nat
  day : Nat
  hour : Nat
  minute : Nat
  second : Nat

/-- The decimal digit characters. -/
def digitChar : Nat → Char
  | 0 => '0' | 1 => '1' | 2 => '2' | 3 => '3' | 4 => '4'
  | 5 => '5' | 6 => '6' | 7 => '7' | 8 => '8' | 9 => '9'
  | _ => '?'

/-- Zero-padded 4-digit rendering (`%Y`). -/
def pad4 (n : Nat) : List Char :=
  [digitChar (n / 1000 % 10), digitChar (n / 100 % 10),
   digitChar (n / 10 % 10), digitChar (n % 10)]

/-- Zero-padded 2-digit rendering (`%m`, `%d`, `%H`, `%M`, `%S`). -/
def pad2 (n : Nat) : List Char :=
  [digitChar (n / 10 % 10), digitChar (n % 10)]

/-- The fixed-width `YYYY-MM-DD HH:MM:SS` character sequence of a stamp. -/
def renderTs (t : TimeStamp) : List Char :=
  pad4 t.year ++ '-' :: (pad2 t.month ++ '-' :: (pad2 t.day ++ ' ' ::
    (pad2 t.hour ++ ':' :: (pad2 t.minute ++ ':' :: pad2 t.second))))

/-- The components fit their rendered widths. -/
def widthOK (t : TimeStamp) : Prop :=
  t.year < 10000 ∧ t.month < 100 ∧ t.day < 100 ∧ t.hour < 100 ∧
    t.minute < 100 ∧ t.second < 100

/-- Chronological (component-lexicographic) strict order on stamps. -/
def chronLt (a b : TimeStamp) : Prop :=
  a.year < b.year ∨ (a.year = b.year ∧
    (a.month < b.month ∨ (a.month = b.month ∧
      (a.day < b.day ∨ (a.day = b.day ∧
        (a.hour < b.hour ∨ (a.hour = b.hour ∧
          (a.minute < b.minute ∨ (a.minute = b.minute ∧
            a.second < b.second)))))))))

/-! ## Lemmas about the lexicographic string comparison -/

/-- One comparison stage of a fixed-width field: strictly smaller wins,
strictly larger loses, ties defer to the continuation. -/
def cmp2 (x y : Nat) (k : Bool) : Bool :=
  if x < y then true else if y < x then false else k


/-! ## Lemmas about the stable descending sort -/

theorem insertDescBy_perm (lt : α → α → Bool) (x : α) (l : List α) :
    List.Perm (insertDescBy lt x l) (x :: l) := by
  induction l with
  | nil => exact List.Perm.refl _
  | cons y ys ih =>
    simp only [insertDescBy]
    cases hxy : lt x y with
    | true =>
      rw [if_pos rfl]
      exact (ih.cons y).trans (List.Perm.swap x y ys)
    | false =>
      rw [if_neg (by simp)]

theorem sortDescBy_perm (lt : α → α → Bool) (l : List α) :
    List.Perm (sortDescBy lt l) l := by
  induction l with
  | nil => exact List.Perm.refl _
  | cons x xs ih =>
    exact (insertDescBy_perm lt x (sortDescBy lt xs)).trans (ih.cons x)

theorem mem_insertDescBy (lt : α → α → Bool) (x y : α) (l : List α) :
    y ∈ insertDescBy lt x l ↔ y = x ∨ y ∈ l := by
  rw [(insertDescBy_perm lt x l).mem_iff]
  simp

theorem insertDescBy_pairwise (lt : α → α → Bool)
    (hasym : ∀ a b, lt a b = true → lt b a = false)
    (htrans : ∀ a b c, lt a b = false → lt b c = false → lt a c = false)
    (x : α) (l : List α) (hl : l.Pairwise (fun a b => lt a b = false)) :
    (insertDescBy lt x l).Pairwise (fun a b => lt a b = false) := by
  induction l with
  | nil => simp [insertDescBy]
  | cons y ys ih =>
    rw [List.pairwise_cons] at hl
    obtain ⟨hy, hys⟩ := hl
    simp only [insertDescBy]
    cases hxy : lt x y with
    | true =>
      simp only [if_pos rfl]
      refine List.Pairwise.cons ?_ (ih hys)
      intro z hz
      rcases (mem_insertDescBy lt x z ys).1 hz with rfl | hzys
      · exact hasym _ _ hxy
      · exact hy z hzys
    | false =>
      rw [if_neg (by simp)]
      refine List.Pairwise.cons ?_ (List.Pairwise.cons hy hys)
      intro z hz
      rcases List.mem_cons.1 hz with rfl | hzys
      · exact hxy
      · exact htrans _ _ _ hxy (hy z hzys)

theorem sortDescBy_pairwise (lt : α → α → Bool)
    (hasym : ∀ a b, lt a b = true → lt b a = false)
    (htrans : ∀ a b c, lt a b = false → lt b c = false → lt a c = false)
    (l : List α) :
    (sortDescBy lt l).Pairwise (fun a b => lt a b = false) := by
  induction l with
  | nil => simp [sortDescBy]
  | cons x xs ih =>
    exact insertDescBy_pairwise lt hasym htrans x _ ih

theorem priceLt_asymm (a b : CartItem) : priceLt a b = true → priceLt b a = false := by
  simp only [priceLt, decide_eq_true_eq, decide_eq_false_iff_not, not_lt]
  omega

theorem priceLt_compl_trans (a b c : CartItem) :
    priceLt a b = false → priceLt b c = false → priceLt a c = false := by
  simp only [priceLt, decide_eq_false_iff_not, not_lt]
  omega

/-- The promotion sort is a permutation of the promotion products. -/
theorem sortDesc_perm (l : List CartItem) : List.Perm (sortDesc l) l :=
  sortDescBy_perm priceLt l

/-- The promotion sort is descending by price. -/
theorem sortDesc_sorted (l : List CartItem) :
    (sortDesc l).Pairwise (fun a b => b.price ≤ a.price) := by
  have h := sortDescBy_pairwise priceLt priceLt_asymm priceLt_compl_trans l
  refine h.imp ?_
  intro a b hab
  simpa [priceLt, not_lt] using hab

/-- Stability of the promotion sort: the items of any one price keep their
original relative order. -/
theorem insertDesc_filter_price (x : CartItem) (l : List CartItem) (c : Int) :
    (insertDescBy priceLt x l).filter (fun p => p.price == c) =
      if x.price = c then x :: l.filter (fun p => p.price == c)
      else l.filter (fun p => p.price == c) := by
  induction l with
  | nil => by_cases hx : x.price = c <;> simp [insertDescBy, hx]
  | cons y ys ih =>
    simp only [insertDescBy]
    cases hlt : priceLt x y with
    | false =>
      rw [if_neg (by simp)]
      by_cases hx : x.price = c <;>
        by_cases hy : y.price = c <;>
          simp_all [List.filter_cons]
    | true =>
      have hxy : x.price < y.price := by simpa [priceLt] using hlt
      rw [if_pos rfl]
      by_cases hx : x.price = c
      · have hy : ¬ y.price = c := by omega
        simp_all [List.filter_cons]
      · by_cases hy : y.price = c <;> simp_all [List.filter_cons]

theorem sortDesc_stable (l : List CartItem) (c : Int) :
    (sortDesc l).filter (fun p => p.price == c) =
      l.filter (fun p => p.price == c) := by
  induction l with
  | nil => rfl
  | cons x xs ih =>
    show (insertDescBy priceLt x (sortDesc xs)).filter _ = _
    rw [insertDesc_filter_price]
    by_cases hx : x.price = c <;> simp_all [List.filter_cons]

/-! ## Lemmas about the partition and the group processing -/

/-- The partition loop computes the three order-preserving filters of the
cart, in the `IsLottery` → `3for2` → regular precedence order. -/
theorem partitionCart_eq (cart : List CartItem) :
    partitionCart cart =
      (cart.filter (·.isLottery),
       cart.filter (fun p => !p.isLottery && isBundleTag p.promotion),
       cart.filter (fun p => !p.isLottery && !isBundleTag p.promotion)) := by
  induction cart with
  | nil => rfl
  | cons p rest ih =>
    simp only [partitionCart, ih]
    by_cases hl : p.isLottery <;>
      by_cases hb : isBundleTag p.promotion <;>
        simp [List.filter_cons, hl, hb]

theorem sumPrices_append (l₁ l₂ : List CartItem) :
    sumPrices (l₁ ++ l₂) = sumPrices l₁ + sumPrices l₂ := by
  simp [sumPrices]

/-- Concatenating the three partition classes permutes the whole cart. -/
theorem partition_classes_perm (cart : List CartItem) :
    List.Perm
      (cart.filter (·.isLottery) ++
        (cart.filter (fun p => !p.isLottery && isBundleTag p.promotion) ++
          cart.filter (fun p => !p.isLottery && !isBundleTag p.promotion)))
      cart := by
  have h1 := List.filter_append_perm (fun p : CartItem => isBundleTag p.promotion)
    (cart.filter (fun p => !p.isLottery))
  rw [List.filter_filter, List.filter_filter] at h1
  have h2 : cart.filter (fun p => isBundleTag p.promotion && !p.isLottery) =
      cart.filter (fun p => !p.isLottery && isBundleTag p.promotion) := by
    apply List.filter_congr
    intro a _
    exact Bool.and_comm _ _
  have h3 : cart.filter (fun p => !isBundleTag p.promotion && !p.isLottery) =
      cart.filter (fun p => !p.isLottery && !isBundleTag p.promotion) := by
    apply List.filter_congr
    intro a _
    exact Bool.and_comm _ _
  rw [h2, h3] at h1
  exact (h1.append_left (cart.filter (·.isLottery))).trans
    (List.filter_append_perm (fun p : CartItem => p.isLottery) cart)

theorem sumPrices_perm {l₁ l₂ : List CartItem} (h : List.Perm l₁ l₂) :
    sumPrices l₁ = sumPrices l₂ := by
  simpa [sumPrices] using (h.map (fun p => p.price)).sum_eq

/-- The three partition classes sum to the whole cart. -/
theorem sumPrices_partition (cart : List CartItem) :
    sumPrices (cart.filter (·.isLottery)) +
      sumPrices (cart.filter (fun p => !p.isLottery && isBundleTag p.promotion)) +
      sumPrices (cart.filter (fun p => !p.isLottery && !isBundleTag p.promotion)) =
      sumPrices cart := by
  have h := sumPrices_perm (partition_classes_perm cart)
  rw [sumPrices_append, sumPrices_append] at h
  omega

/-- The chunks are the consecutive slices: flattening them restores the
sorted list. -/
theorem chunks3_flatten (l : List CartItem) : (chunks3 l).flatten = l := by
  induction l using chunks3.induct <;> simp_all [chunks3]

theorem chunks3_mem_subset {g : List CartItem} {l : List CartItem}
    (hg : g ∈ chunks3 l) : ∀ x ∈ g, x ∈ l := by
  intro x hx
  have hmem : x ∈ (chunks3 l).flatten := List.mem_flatten.2 ⟨g, hg, hx⟩
  simpa [chunks3_flatten] using hmem

theorem chunks3_length {g : List CartItem} {l : List CartItem}
    (hg : g ∈ chunks3 l) : g ≠ [] ∧ g.length ≤ 3 := by
  induction l using chunks3.induct with
  | case1 => simp [chunks3] at hg
  | case2 a => simp [chunks3] at hg; simp [hg]
  | case3 a b => simp [chunks3] at hg; simp [hg]
  | case4 a b c rest ih =>
    simp only [chunks3, List.mem_cons] at hg
    rcases hg with rfl | hg
    · simp
    · exact ih hg

theorem minByPrice_mem (x : CartItem) (l : List CartItem) :
    minByPrice x l ∈ x :: l := by
  induction l generalizing x with
  | nil => simp [minByPrice]
  | cons y ys ih =>
    simp only [minByPrice]
    by_cases h : y.price < x.price
    · rw [if_pos h]
      have := ih y
      simp only [List.mem_cons] at this ⊢
      tauto
    · rw [if_neg h]
      have := ih x
      simp only [List.mem_cons] at this ⊢
      tauto

theorem minByPrice_price (x : CartItem) (l : List CartItem) :
    (minByPrice x l).price = (l.map (·.price)).foldl min x.price := by
  induction l generalizing x with
  | nil => simp [minByPrice]
  | cons y ys ih =>
    simp only [minByPrice, List.map_cons, List.foldl_cons]
    by_cases h : y.price < x.price
    · rw [if_pos h, ih y, min_eq_right (le_of_lt h)]
    · rw [if_neg h, ih x, min_eq_left (le_of_not_lt h)]

/-- On a price-descending list, the promotion loop charges exactly "two of
each three": the cheapest member of a sorted triple is its last element. -/
theorem processGroups_chunks3_total :
    ∀ l : List CartItem, l.Pairwise (fun a b => b.price ≤ a.price) →
      (processGroups (chunks3 l)).1 = chargeTwoOfThree (l.map (·.price)) := by
  intro l
  induction l using chunks3.induct with
  | case1 => intro _; simp [chunks3, processGroups, chargeTwoOfThree]
  | case2 a =>
    intro _
    simp [chunks3, processGroups, chargeTwoOfThree, sumPrices]
  | case3 a b =>
    intro _
    simp [chunks3, processGroups, chargeTwoOfThree, sumPrices]
  | case4 a b c rest ih =>
    intro hl
    rw [List.pairwise_cons] at hl
    obtain ⟨ha, hl⟩ := hl
    rw [List.pairwise_cons] at hl
    obtain ⟨hb, hl⟩ := hl
    rw [List.pairwise_cons] at hl
    obtain ⟨hc, hrest⟩ := hl
    have hba : b.price ≤ a.price := ha b (by simp)
    have hcb : c.price ≤ b.price := hb c (by simp)
    simp only [chunks3]
    rcases hpg : processGroups (chunks3 rest) with ⟨t, ds⟩
    have hmin : listMin [a.price, b.price, c.price] = c.price := by
      simp only [listMin, List.foldl_cons, List.foldl_nil]
      rw [min_eq_right hba, min_eq_right hcb]
    have ihr := ih hrest
    rw [hpg] at ihr
    simp only at ihr
    simp [processGroups, hpg, hmin, sumPrices, chargeTwoOfThree, ihr]
    omega

/-- Every discount attribution produced by the promotion loop comes from a
full group of three and names that group's (first) cheapest product and its
price. -/
theorem processGroups_discounts (gs : List (List CartItem)) :
    ∀ d ∈ (processGroups gs).2, ∃ g ∈ gs, g.length = 3 ∧
      d = ⟨minByPrice g.headI g.tail, listMin (g.map (·.price)), "3 за 2"⟩ := by
  induction gs with
  | nil => simp [processGroups]
  | cons g gs ih =>
    intro d hd
    rcases hpg : processGroups gs with ⟨t, ds⟩
    rw [hpg] at ih
    simp only [processGroups, hpg] at hd
    by_cases hg : g.length = 3
    · rw [if_pos hg] at hd
      rcases List.mem_cons.1 hd with rfl | hds
      · exact ⟨g, by simp, hg, rfl⟩
      · obtain ⟨g', hg', h3, hdef⟩ := ih d hds
        exact ⟨g', by simp [hg'], h3, hdef⟩
    · rw [if_neg hg] at hd
      obtain ⟨g', hg', h3, hdef⟩ := ih d hd
      exact ⟨g', by simp [hg'], h3, hdef⟩

/-- A bundle group of at most two items is charged in full and produces no
discount. -/
theorem processGroups_chunks3_small (l : List CartItem) (hl : l.length ≤ 2) :
    processGroups (chunks3 l) = (sumPrices l, []) := by
  match l, hl with
  | [], _ => simp [chunks3, processGroups, sumPrices]
  | [a], _ => simp [chunks3, processGroups, sumPrices]
  | [a, b], _ => simp [chunks3, processGroups, sumPrices]

/-- The engine's total, projected out of the definition: lottery and
regular items sum directly, the sorted bundle list is charged two-of-three. -/
theorem calc_total_eq (cart : List CartItem) :
    (calculate_cart_with_promotions cart).1 =
      sumPrices (cart.filter (·.isLottery)) +
        sumPrices (cart.filter (fun p => !p.isLottery && !isBundleTag p.promotion)) +
        chargeTwoOfThree
          ((sortDesc (cart.filter (fun p => !p.isLottery && isBundleTag p.promotion))).map
            (·.price)) := by
  by_cases he : cart.isEmpty
  · have : cart = [] := List.isEmpty_iff.1 he
    subst this
    simp [calculate_cart_with_promotions, sortDesc, sortDescBy, chunks3,
      processGroups, chargeTwoOfThree, sumPrices]
  · have hsorted := sortDesc_sorted (cart.filter (fun p => !p.isLottery && isBundleTag p.promotion))
    rcases hpg : processGroups (chunks3 (sortDesc
        (cart.filter (fun p => !p.isLottery && isBundleTag p.promotion)))) with ⟨t, ds⟩
    have htot := processGroups_chunks3_total _ hsorted
    rw [hpg] at htot
    simp only at htot
    simp only [calculate_cart_with_promotions, partitionCart_eq, hpg]
    rw [if_neg he]
    simp [htot]

/-- The engine's discount list, projected out of the definition. -/
theorem calc_discounts_eq (cart : List CartItem) :
    (calculate_cart_with_promotions cart).2 =
      (processGroups (chunks3 (sortDesc
        (cart.filter (fun p => !p.isLottery && isBundleTag p.promotion))))).2 := by
  by_cases he : cart.isEmpty
  · have : cart = [] := List.isEmpty_iff.1 he
    subst this
    simp [calculate_cart_with_promotions, sortDesc, sortDescBy, chunks3, processGroups]
  · rcases hpg : processGroups (chunks3 (sortDesc
        (cart.filter (fun p => !p.isLottery && isBundleTag p.promotion)))) with ⟨t, ds⟩
    simp only [calculate_cart_with_promotions, partitionCart_eq, hpg]
    rw [if_neg he]

theorem chargeTwoOfThree_small (l : List Int) (hl : l.length ≤ 2) :
    chargeTwoOfThree l = l.sum := by
  match l, hl with
  | [], _ => rfl
  | [a], _ => rfl
  | [a, b], _ => rfl

theorem sortDesc_map_sorted (l : List CartItem) :
    ((sortDesc l).map (·.price)).Pairwise (· ≥ ·) := by
  rw [List.pairwise_map]
  exact (sortDesc_sorted l).imp (fun h => h)

/-- Permuted bundle lists sort to the same price sequence. -/
theorem sortDesc_map_eq_of_perm {l₁ l₂ : List CartItem} (h : List.Perm l₁ l₂) :
    (sortDesc l₁).map (·.price) = (sortDesc l₂).map (·.price) := by
  refine List.eq_of_perm_of_sorted (r := (· ≥ ·)) ?_ (sortDesc_map_sorted l₁) (sortDesc_map_sorted l₂)
  exact ((sortDesc_perm l₁).trans (h.trans (sortDesc_perm l₂).symm)).map _

/-- C1. The promotion engine partitions the cart into lottery /
bundle-eligible / regular classes, stably sorts the bundle class descending
by price, slices it into consecutive triples, charges the two higher-priced
members of each full triple while the cheapest member goes free (the
discount attributed to that item instance), and returns
`sum(regular) + sum(lottery) + charged bundle prices`; on the spec's
four-item scenario the total is 1400 with the 400-priced item free. -/
theorem engine_partition_sort_triples_C1 :
    (∀ cart : List CartItem,
      partitionCart cart = (lotteryItems cart, bundleItems cart, regularItems cart) ∧
      List.Perm (sortDesc (bundleItems cart)) (bundleItems cart) ∧
      (sortDesc (bundleItems cart)).Pairwise (fun a b => b.price ≤ a.price) ∧
      (∀ c : Int, (sortDesc (bundleItems cart)).filter (fun p => p.price == c) =
        (bundleItems cart).filter (fun p => p.price == c)) ∧
      (chunks3 (sortDesc (bundleItems cart))).flatten = sortDesc (bundleItems cart) ∧
      (calculate_cart_with_promotions cart).1 =
        sumPrices (regularItems cart) + sumPrices (lotteryItems cart) +
          chargeTwoOfThree ((sortDesc (bundleItems cart)).map (·.price)) ∧
      (∀ d ∈ (calculate_cart_with_promotions cart).2,
        ∃ g ∈ chunks3 (sortDesc (bundleItems cart)), g.length = 3 ∧
          d.product ∈ g ∧ d.product ∈ cart ∧
          d.product.price = listMin (g.map (·.price)) ∧
          d.discount_amount = d.product.price)) ∧
    (calculate_cart_with_promotions
        [⟨1, 1, "", 300, 0, "", false, none⟩,
         ⟨2, 1, "", 500, 0, "3for2", false, none⟩,
         ⟨3, 1, "", 400, 0, "3for2", false, none⟩,
         ⟨4, 1, "", 600, 0, "3for2", false, none⟩]).1 = 1400 ∧
    (calculate_cart_with_promotions
        [⟨1, 1, "", 300, 0, "", false, none⟩,
         ⟨2, 1, "", 500, 0, "3for2", false, none⟩,
         ⟨3, 1, "", 400, 0, "3for2", false, none⟩,
         ⟨4, 1, "", 600, 0, "3for2", false, none⟩]).2.map
      (fun d => (d.product.productID, d.discount_amount)) = [(3, 400)] := by
  refine ⟨fun cart => ?_, by decide, by decide⟩
  simp only [lotteryItems, bundleItems, regularItems]
  refine ⟨partitionCart_eq cart, sortDesc_perm _, sortDesc_sorted _,
    fun c => sortDesc_stable _ c, chunks3_flatten _, ?_, ?_⟩
  · rw [calc_total_eq cart]
    ring
  · intro d hd
    rw [calc_discounts_eq] at hd
    obtain ⟨g, hg, h3, hdef⟩ := processGroups_discounts _ d hd
    obtain ⟨a, b, c, rfl⟩ := List.length_eq_three.1 h3
    subst hdef
    have hpr : (minByPrice ([a, b, c].headI) ([a, b, c].tail)).price =
        listMin ([a, b, c].map (·.price)) := by
      simp [minByPrice_price, listMin]
    refine ⟨[a, b, c], hg, h3, ?_, ?_, hpr, hpr.symm⟩
    · simpa using minByPrice_mem a [b, c]
    · have hmem : minByPrice a [b, c] ∈
          sortDesc (cart.filter (fun p => !p.isLottery && isBundleTag p.promotion)) :=
        chunks3_mem_subset hg _ (by simpa using minByPrice_mem a [b, c])
      have hmem2 : minByPrice a [b, c] ∈
          cart.filter (fun p => !p.isLottery && isBundleTag p.promotion) :=
        ((sortDesc_perm _).mem_iff).1 hmem
      simpa using List.mem_of_mem_filter hmem2

/-- Witness for C1: the attribution clause applied to the scenario's
discount entry — the 400-priced bundle item belongs to the cart and its
price equals the attributed amount. -/
theorem engine_partition_sort_triples_C1_witness :
    ((⟨⟨3, 1, "", 400, 0, "3for2", false, none⟩, 400, "3 за 2"⟩ :
        DiscountInfo).product ∈
      ([⟨1, 1, "", 300, 0, "", false, none⟩,
        ⟨2, 1, "", 500, 0, "3for2", false, none⟩,
        ⟨3, 1, "", 400, 0, "3for2", false, none⟩,
        ⟨4, 1, "", 600, 0, "3for2", false, none⟩] : List CartItem)) := by
  obtain ⟨g, hg, h3, hmemg, hmemc, hpr, hamt⟩ :=
    (engine_partition_sort_triples_C1.1
      [⟨1, 1, "", 300, 0, "", false, none⟩,
       ⟨2, 1, "", 500, 0, "3for2", false, none⟩,
       ⟨3, 1, "", 400, 0, "3for2", false, none⟩,
       ⟨4, 1, "", 600, 0, "3for2", false, none⟩]).2.2.2.2.2.2
      ⟨⟨3, 1, "", 400, 0, "3for2", false, none⟩, 400, "3 за 2"⟩ (by decide)
  exact hmemc

/-- C5. Bundle leftovers after the full triples are charged in full: at
most two bundle-eligible items produce no discount; exactly four produce
exactly one triple of the three highest-priced (the third-highest goes
free, the fourth is charged in full); and the total is invariant under
reordering of the cart. -/
theorem bundle_leftovers_C5 :
    (∀ cart : List CartItem, (bundleItems cart).length ≤ 2 →
      (calculate_cart_with_promotions cart).2 = [] ∧
      (calculate_cart_with_promotions cart).1 = sumPrices cart) ∧
    (∀ cart : List CartItem, (bundleItems cart).length = 4 →
      ∃ a b c d, sortDesc (bundleItems cart) = [a, b, c, d] ∧
        b.price ≤ a.price ∧ c.price ≤ b.price ∧ d.price ≤ c.price ∧
        (calculate_cart_with_promotions cart).1 = sumPrices cart - c.price ∧
        (calculate_cart_with_promotions cart).2.map (·.discount_amount) = [c.price]) ∧
    (∀ cart cart' : List CartItem, List.Perm cart cart' →
      (calculate_cart_with_promotions cart).1 = (calculate_cart_with_promotions cart').1) := by
  refine ⟨?_, ?_, ?_⟩
  · intro cart hlen
    simp only [bundleItems] at hlen
    have hslen : (sortDesc (cart.filter
        (fun p => !p.isLottery && isBundleTag p.promotion))).length ≤ 2 := by
      rw [(sortDesc_perm _).length_eq]; exact hlen
    constructor
    · rw [calc_discounts_eq, processGroups_chunks3_small _ hslen]
    · rw [calc_total_eq cart]
      have hcharge : chargeTwoOfThree ((sortDesc (cart.filter
          (fun p => !p.isLottery && isBundleTag p.promotion))).map (·.price)) =
          sumPrices (sortDesc (cart.filter
            (fun p => !p.isLottery && isBundleTag p.promotion))) := by
        rw [chargeTwoOfThree_small _ (by simpa using hslen)]
        rfl
      rw [hcharge, sumPrices_perm (sortDesc_perm _)]
      have hpart := sumPrices_partition cart
      omega
  · intro cart hlen
    simp only [bundleItems] at hlen ⊢
    have hslen : (sortDesc (cart.filter
        (fun p => !p.isLottery && isBundleTag p.promotion))).length = 4 := by
      rw [(sortDesc_perm _).length_eq]; exact hlen
    obtain ⟨a, b, c, d, heq⟩ : ∃ a b c d, sortDesc (cart.filter
        (fun p => !p.isLottery && isBundleTag p.promotion)) = [a, b, c, d] := by
      rcases h : sortDesc (cart.filter
          (fun p => !p.isLottery && isBundleTag p.promotion)) with _|⟨a,_|⟨b,_|⟨c,_|⟨d,_|t⟩⟩⟩⟩ <;>
        rw [h] at hslen <;> simp_all
    have hsorted := sortDesc_sorted (cart.filter
      (fun p => !p.isLottery && isBundleTag p.promotion))
    rw [heq] at hsorted
    have hba : b.price ≤ a.price := (List.pairwise_cons.1 hsorted).1 b (by simp)
    have hcb : c.price ≤ b.price :=
      (List.pairwise_cons.1 (List.pairwise_cons.1 hsorted).2).1 c (by simp)
    have hdc : d.price ≤ c.price :=
      (List.pairwise_cons.1 (List.pairwise_cons.1 (List.pairwise_cons.1 hsorted).2).2).1 d
        (by simp)
    have hsum : sumPrices (cart.filter
        (fun p => !p.isLottery && isBundleTag p.promotion)) =
        a.price + b.price + c.price + d.price := by
      rw [← sumPrices_perm (sortDesc_perm _), heq]
      simp [sumPrices]
      omega
    refine ⟨a, b, c, d, heq, hba, hcb, hdc, ?_, ?_⟩
    · rw [calc_total_eq cart, heq]
      have hpart := sumPrices_partition cart
      have hch : chargeTwoOfThree ([a, b, c, d].map (·.price)) =
          a.price + b.price + d.price := by
        simp [chargeTwoOfThree]
      rw [hch]
      omega
    · rw [calc_discounts_eq, heq]
      have hmin : listMin [a.price, b.price, c.price] = c.price := by
        simp only [listMin, List.foldl_cons, List.foldl_nil]
        rw [min_eq_right hba, min_eq_right hcb]
      simp [chunks3, processGroups, sumPrices, hmin]
  · intro cart cart' hperm
    rw [calc_total_eq cart, calc_total_eq cart']
    have h1 : sumPrices (cart.filter (·.isLottery)) =
        sumPrices (cart'.filter (·.isLottery)) :=
      sumPrices_perm (hperm.filter _)
    have h2 : sumPrices (cart.filter (fun p => !p.isLottery && !isBundleTag p.promotion)) =
        sumPrices (cart'.filter (fun p => !p.isLottery && !isBundleTag p.promotion)) :=
      sumPrices_perm (hperm.filter _)
    have h3 : (sortDesc (cart.filter (fun p => !p.isLottery && isBundleTag p.promotion))).map
        (·.price) =
        (sortDesc (cart'.filter (fun p => !p.isLottery && isBundleTag p.promotion))).map
        (·.price) :=
      sortDesc_map_eq_of_perm (hperm.filter _)
    rw [h1, h2, h3]

/-- Witness for C5: a two-item bundle cart gets no discount, and a
four-item bundle cart (in scrambled insertion order) totals the same as its
reversal. -/
theorem bundle_leftovers_C5_witness :
    (calculate_cart_with_promotions
      [⟨1, 1, "", 100, 0, "3for2", false, none⟩,
       ⟨2, 1, "", 200, 0, "3for2", false, none⟩]).2 = [] ∧
    (calculate_cart_with_promotions
      [⟨1, 1, "", 100, 0, "3for2", false, none⟩,
       ⟨2, 1, "", 200, 0, "3for2", false, none⟩,
       ⟨3, 1, "", 300, 0, "3for2", false, none⟩,
       ⟨4, 1, "", 50, 0, "3for2", false, none⟩]).1 =
      (calculate_cart_with_promotions
      [⟨4, 1, "", 50, 0, "3for2", false, none⟩,
       ⟨3, 1, "", 300, 0, "3for2", false, none⟩,
       ⟨2, 1, "", 200, 0, "3for2", false, none⟩,
       ⟨1, 1, "", 100, 0, "3for2", false, none⟩]).1 := by
  constructor
  · exact (bundle_leftovers_C5.1
      [⟨1, 1, "", 100, 0, "3for2", false, none⟩,
       ⟨2, 1, "", 200, 0, "3for2", false, none⟩] (by decide)).1
  · exact bundle_leftovers_C5.2.2
      [⟨1, 1, "", 100, 0, "3for2", false, none⟩,
       ⟨2, 1, "", 200, 0, "3for2", false, none⟩,
       ⟨3, 1, "", 300, 0, "3for2", false, none⟩,
       ⟨4, 1, "", 50, 0, "3for2", false, none⟩]
      [⟨4, 1, "", 50, 0, "3for2", false, none⟩,
       ⟨3, 1, "", 300, 0, "3for2", false, none⟩,
       ⟨2, 1, "", 200, 0, "3for2", false, none⟩,
       ⟨1, 1, "", 100, 0, "3for2", false, none⟩]
      (by decide)

/-- C6. A lottery cart item always has price exactly 200 and the
`IsLottery` flag, whatever the catalog price was; the engine never places a
lottery item in the bundle group (so it is never a triple member nor the
free item) and each lottery item contributes exactly its fixed price to the
total. -/
theorem lottery_fixed_price_C6 :
    (∀ (catalog : List Product) (pid : Int) (cart : List CartItem),
      add_lottery_to_cart catalog pid cart = cart ∨
      ∃ p, catalog.find? (fun q => q.productID == pid) = some p ∧
        add_lottery_to_cart catalog pid cart = cart ++ [mkLotteryProduct p] ∧
        (mkLotteryProduct p).price = 200 ∧
        (mkLotteryProduct p).isLottery = true) ∧
    (∀ cart : List CartItem,
      (partitionCart cart).1 = lotteryItems cart ∧
      (∀ p ∈ (partitionCart cart).2.1, p.isLottery = false) ∧
      (∀ d ∈ (calculate_cart_with_promotions cart).2, d.product.isLottery = false) ∧
      (calculate_cart_with_promotions cart).1 =
        sumPrices (lotteryItems cart) +
          (calculate_cart_with_promotions (cart.filter (fun p => !p.isLottery))).1) := by
  constructor
  · intro catalog pid cart
    cases hf : catalog.find? (fun q => q.productID == pid) with
    | none => exact Or.inl (by simp [add_lottery_to_cart, hf])
    | some p => exact Or.inr ⟨p, rfl, by simp [add_lottery_to_cart, hf], rfl, rfl⟩
  · intro cart
    have hbb : (cart.filter (fun p => !p.isLottery)).filter
        (fun p => !p.isLottery && isBundleTag p.promotion) =
        cart.filter (fun p => !p.isLottery && isBundleTag p.promotion) := by
      rw [List.filter_filter]
      apply List.filter_congr
      intro a _
      cases ha : a.isLottery <;> simp [ha]
    have hrr : (cart.filter (fun p => !p.isLottery)).filter
        (fun p => !p.isLottery && !isBundleTag p.promotion) =
        cart.filter (fun p => !p.isLottery && !isBundleTag p.promotion) := by
      rw [List.filter_filter]
      apply List.filter_congr
      intro a _
      cases ha : a.isLottery <;> simp [ha]
    have hll : (cart.filter (fun p => !p.isLottery)).filter (·.isLottery) = [] := by
      rw [List.filter_filter]
      apply List.filter_eq_nil_iff.2
      intro a _
      cases ha : a.isLottery <;> simp [ha]
    refine ⟨by rw [partitionCart_eq]; rfl, ?_, ?_, ?_⟩
    · intro p hp
      rw [partitionCart_eq] at hp
      have := List.of_mem_filter hp
      simp at this
      exact this.1
    · intro d hd
      rw [calc_discounts_eq] at hd
      obtain ⟨g, hg, h3, hdef⟩ := processGroups_discounts _ d hd
      obtain ⟨a, b, c, rfl⟩ := List.length_eq_three.1 h3
      subst hdef
      have hmem : minByPrice ([a, b, c].headI) ([a, b, c].tail) ∈
          sortDesc (cart.filter (fun p => !p.isLottery && isBundleTag p.promotion)) :=
        chunks3_mem_subset hg _ (by simpa using minByPrice_mem a [b, c])
      have hmem2 := ((sortDesc_perm _).mem_iff).1 hmem
      have := List.of_mem_filter hmem2
      simp at this
      exact this.1
    · rw [calc_total_eq cart, calc_total_eq (cart.filter (fun p => !p.isLottery)),
        hbb, hrr, hll]
      simp only [lotteryItems, sortDesc, sortDescBy, chunks3, sumPrices,
        List.map_nil, List.sum_nil]
      ring_nf

/-- Witness for C6: adding catalog product 9 (catalog price 750) as a
lottery win appends a 200-priced lottery item. -/
theorem lottery_fixed_price_C6_witness :
    add_lottery_to_cart [⟨9, 2, "книга", 750, 0, "", ⟩] 9 [] = [] ∨
    ∃ p, ([⟨9, 2, "книга", 750, 0, "", ⟩] : List Product).find?
        (fun q => q.productID == 9) = some p ∧
      add_lottery_to_cart [⟨9, 2, "книга", 750, 0, "", ⟩] 9 [] = [] ++ [mkLotteryProduct p] ∧
      (mkLotteryProduct p).price = 200 ∧
      (mkLotteryProduct p).isLottery = true :=
  lottery_fixed_price_C6.1 [⟨9, 2, "книга", 750, 0, "", ⟩] 9 []

/-- C7. Adding a discounted product (`with_discount`, `Discount > 0`)
stores `max(0, Price − Discount)` with the discount recorded; a
one-item cart prices at exactly the stored price, so the add-time discount
round-trips through the engine: 300 − 50 ↦ 250 ↦ total 250. -/
theorem discount_roundtrip_C7 :
    (∀ (catalog : List Product) (pid : Int) (cart : List CartItem) (p : Product),
      catalog.find? (fun q => q.productID == pid) = some p → p.discount > 0 →
      add_to_cart catalog pid true cart = cart ++ [mkCartProduct p true] ∧
      (mkCartProduct p true).price = max 0 (p.price - p.discount) ∧
      (mkCartProduct p true).discountApplied = some p.discount) ∧
    (∀ item : CartItem, (calculate_cart_with_promotions [item]).1 = item.price) ∧
    (add_to_cart [⟨7, 1, "книга", 300, 50, ""⟩] 7 true [] =
        [⟨7, 1, "книга", 250, 50, "", false, some 50⟩] ∧
      (calculate_cart_with_promotions [⟨7, 1, "книга", 250, 50, "", false, some 50⟩]).1 =
        250) := by
  refine ⟨?_, ?_, by decide, by decide⟩
  · intro catalog pid cart p hf hd
    refine ⟨by simp [add_to_cart, hf], ?_, ?_⟩
    · simp [mkCartProduct, hd]
    · simp [mkCartProduct, hd]
  · intro item
    rw [calc_total_eq [item]]
    by_cases hl : item.isLottery
    · simp [List.filter_cons, hl, sumPrices, sortDesc, sortDescBy, chunks3,
        chargeTwoOfThree]
    · by_cases hb : isBundleTag item.promotion
      · simp [List.filter_cons, hl, hb, sumPrices, sortDesc, sortDescBy,
          insertDescBy, chunks3, chargeTwoOfThree]
      · simp [List.filter_cons, hl, hb, sumPrices, sortDesc, sortDescBy,
          chunks3, chargeTwoOfThree]

/-- Witness for C7: the add-path clause at the concrete 300/50 catalog
product. -/
theorem discount_roundtrip_C7_witness :
    add_to_cart [⟨7, 1, "книга", 300, 50, ""⟩] 7 true [] =
      [] ++ [mkCartProduct ⟨7, 1, "книга", 300, 50, ""⟩ true] ∧
    (mkCartProduct ⟨7, 1, "книга", 300, 50, ""⟩ true).price =
      max 0 ((300 : Int) - 50) ∧
    (mkCartProduct ⟨7, 1, "книга", 300, 50, ""⟩ true).discountApplied = some 50 :=
  discount_roundtrip_C7.1 [⟨7, 1, "книга", 300, 50, ""⟩] 7 []
    ⟨7, 1, "книга", 300, 50, ""⟩ (by decide) (by decide)

/-! ## Lemmas about the recording loop and the payment map -/

theorem recordLoop_issued (ok : Nat → Bool) (freeIds : List Int) :
    ∀ (l : List CartItem) (i : Nat),
      (recordLoop ok freeIds l i).1 =
        l.map (fun p => (p.productID, if p.productID ∈ freeIds then (0 : Int) else p.price)) := by
  intro l
  induction l with
  | nil => intro i; rfl
  | cons p rest ih =>
    intro i
    rcases hrl : recordLoop ok freeIds rest (i + 1) with ⟨calls, sc, fc⟩
    have := ih (i + 1)
    rw [hrl] at this
    simp [recordLoop, hrl, this]

theorem recordLoop_counts (ok : Nat → Bool) (freeIds : List Int) :
    ∀ (l : List CartItem) (i : Nat),
      (recordLoop ok freeIds l i).2.1 + (recordLoop ok freeIds l i).2.2 = l.length := by
  intro l
  induction l with
  | nil => intro i; rfl
  | cons p rest ih =>
    intro i
    rcases hrl : recordLoop ok freeIds rest (i + 1) with ⟨calls, sc, fc⟩
    have hc := ih (i + 1)
    rw [hrl] at hc
    simp only [Prod.snd, Prod.fst] at hc
    cases hok : ok i <;> simp [recordLoop, hrl, hok] <;> omega

theorem mem_pyInsert (a x : Int) (l : List Int) :
    a ∈ pyInsert x l ↔ a ∈ l ∨ a = x := by
  unfold pyInsert
  by_cases hx : x ∈ l
  · rw [if_pos hx]
    constructor
    · exact Or.inl
    · rintro (h | rfl)
      · exact h
      · exact hx
  · rw [if_neg hx]
    simp

theorem pyInsert_self (x : Int) (l : List Int) : x ∈ pyInsert x l :=
  (mem_pyInsert x x l).2 (Or.inr rfl)

/-- `confirm_author_payment` on its non-abort path, written out: the result
is the all-paid check over `payments ∪ {aid}`, and the recording summary is
the record loop over the author's items with the author-local promotion
map. -/
theorem confirm_author_payment_eq (authors : List Author) (ok : Nat → Bool)
    (aid : Int) (s : SessionState) (a : Author)
    (hne : ¬ (s.cart.filter (fun p => p.authorID == aid)).isEmpty = true)
    (ha : authors.find? (fun x => x.authorID == aid) = some a) :
    confirm_author_payment authors ok aid s =
      ((if s.cart.all (fun p => p.authorID ∈ pyInsert aid s.payments)
        then (⟨[], []⟩ : SessionState) else ⟨s.cart, pyInsert aid s.payments⟩),
       some
        ⟨(recordLoop ok
            ((calculate_cart_with_promotions
              (s.cart.filter (fun p => p.authorID == aid))).2.map (·.product.productID))
            (s.cart.filter (fun p => p.authorID == aid)) 0).1,
         (recordLoop ok
            ((calculate_cart_with_promotions
              (s.cart.filter (fun p => p.authorID == aid))).2.map (·.product.productID))
            (s.cart.filter (fun p => p.authorID == aid)) 0).2.1,
         (recordLoop ok
            ((calculate_cart_with_promotions
              (s.cart.filter (fun p => p.authorID == aid))).2.map (·.product.productID))
            (s.cart.filter (fun p => p.authorID == aid)) 0).2.2⟩) := by
  simp only [confirm_author_payment]
  rw [if_neg hne, ha]
  rcases hcd : calculate_cart_with_promotions
    (s.cart.filter (fun p => p.authorID == aid)) with ⟨t, ds⟩
  rcases hrl : recordLoop ok (ds.map (·.product.productID))
    (s.cart.filter (fun p => p.authorID == aid)) 0 with ⟨issued, sc, fc⟩
  simp [hcd, hrl]
  split <;> rfl

/-- C3. On a vendor with cart items (and resolving in the vendor listing),
`confirm_author_payment` issues one `record_transaction` call per item of
that vendor — failures only count, they never stop the batch —, reports
`successCount + failureCount = number of items`, and marks the vendor paid
independently of the outcomes (the resulting state does not depend on the
outcome function at all); in the spec's 2-of-3 scenario the result is
`successCount = 2, failureCount = 1` with the vendor paid. -/
theorem partial_failure_confirm_C3 :
    (∀ (authors : List Author) (ok : Nat → Bool) (aid : Int) (s : SessionState),
      s.cart.filter (fun p => p.authorID == aid) ≠ [] →
      (authors.find? (fun x => x.authorID == aid)).isSome →
      ∃ r : PaymentResult,
        confirm_author_payment authors ok aid s =
          ((if s.cart.all (fun p => p.authorID ∈ pyInsert aid s.payments)
            then (⟨[], []⟩ : SessionState) else ⟨s.cart, pyInsert aid s.payments⟩),
           some r) ∧
        r.issued.map Prod.fst =
          (s.cart.filter (fun p => p.authorID == aid)).map (·.productID) ∧
        r.issued.length = (s.cart.filter (fun p => p.authorID == aid)).length ∧
        r.successCount + r.failureCount =
          (s.cart.filter (fun p => p.authorID == aid)).length ∧
        aid ∈ pyInsert aid s.payments) ∧
    confirm_author_payment [⟨1, "А"⟩, ⟨2, "Б"⟩] (fun i => !(i == 1)) 1
      ⟨[⟨11, 1, "a", 100, 0, "", false, none⟩,
        ⟨12, 1, "b", 200, 0, "", false, none⟩,
        ⟨13, 1, "c", 300, 0, "", false, none⟩,
        ⟨21, 2, "d", 400, 0, "", false, none⟩], []⟩ =
      (⟨[⟨11, 1, "a", 100, 0, "", false, none⟩,
         ⟨12, 1, "b", 200, 0, "", false, none⟩,
         ⟨13, 1, "c", 300, 0, "", false, none⟩,
         ⟨21, 2, "d", 400, 0, "", false, none⟩], [1]⟩,
       some ⟨[(11, 100), (12, 200), (13, 300)], 2, 1⟩) := by
  refine ⟨?_, by decide⟩
  intro authors ok aid s hne hfound
  obtain ⟨a, ha⟩ := Option.isSome_iff_exists.1 hfound
  have hne' : ¬ (s.cart.filter (fun p => p.authorID == aid)).isEmpty = true := by
    simpa [List.isEmpty_iff] using hne
  rw [confirm_author_payment_eq authors ok aid s a hne' ha]
  refine ⟨_, rfl, ?_, ?_, ?_, pyInsert_self aid s.payments⟩
  · rw [recordLoop_issued]
    simp
  · rw [recordLoop_issued]
    simp
  · exact recordLoop_counts ok _ _ 0

/-- Witness for C3: the general clause applied to the scenario state — two
appends succeed, one fails, and the summary covers all three items. -/
theorem partial_failure_confirm_C3_witness :
    ∃ r : PaymentResult,
      (confirm_author_payment [⟨1, "А"⟩, ⟨2, "Б"⟩] (fun i => !(i == 1)) 1
        ⟨[⟨11, 1, "a", 100, 0, "", false, none⟩,
          ⟨12, 1, "b", 200, 0, "", false, none⟩,
          ⟨13, 1, "c", 300, 0, "", false, none⟩,
          ⟨21, 2, "d", 400, 0, "", false, none⟩], []⟩).2 = some r ∧
      r.successCount + r.failureCount = 3 := by
  obtain ⟨r, heq, hmap, hlen, hcnt, hmem⟩ :=
    partial_failure_confirm_C3.1 [⟨1, "А"⟩, ⟨2, "Б"⟩] (fun i => !(i == 1)) 1
      ⟨[⟨11, 1, "a", 100, 0, "", false, none⟩,
        ⟨12, 1, "b", 200, 0, "", false, none⟩,
        ⟨13, 1, "c", 300, 0, "", false, none⟩,
        ⟨21, 2, "d", 400, 0, "", false, none⟩], []⟩ (by decide) (by decide)
  refine ⟨r, by rw [heq], ?_⟩
  rw [hcnt]
  decide

/-- C4. With a two-vendor cart and nobody paid, confirming vendor A leaves
B unpaid and every item of both vendors in the cart, with
`PaymentState = {A: true}`; confirming B afterwards hits the terminal
all-paid reset, emptying both the cart and the payment state. -/
theorem two_vendor_split_C4 :
    ∀ (A B : Int) (authors : List Author) (ok1 ok2 : Nat → Bool) (s : SessionState),
      A ≠ B →
      s.payments = [] →
      (∀ p ∈ s.cart, p.authorID = A ∨ p.authorID = B) →
      (∃ p ∈ s.cart, p.authorID = A) →
      (∃ p ∈ s.cart, p.authorID = B) →
      (authors.find? (fun x => x.authorID == A)).isSome →
      (authors.find? (fun x => x.authorID == B)).isSome →
      (confirm_author_payment authors ok1 A s).1.cart = s.cart ∧
      (confirm_author_payment authors ok1 A s).1.payments = [A] ∧
      B ∉ (confirm_author_payment authors ok1 A s).1.payments ∧
      (confirm_author_payment authors ok2 B
        (confirm_author_payment authors ok1 A s).1).1 = ⟨[], []⟩ := by
  intro A B authors ok1 ok2 s hAB hpay hall ⟨pA, hpA, hpAa⟩ ⟨pB, hpB, hpBa⟩ hfA hfB
  obtain ⟨a, ha⟩ := Option.isSome_iff_exists.1 hfA
  obtain ⟨b, hb⟩ := Option.isSome_iff_exists.1 hfB
  have hneA : ¬ (s.cart.filter (fun p => p.authorID == A)).isEmpty = true := by
    rw [List.isEmpty_iff]
    intro h
    have : pA ∈ s.cart.filter (fun p => p.authorID == A) :=
      List.mem_filter.2 ⟨hpA, by simp [hpAa]⟩
    rw [h] at this
    exact absurd this (List.not_mem_nil pA)
  have hinsA : pyInsert A s.payments = [A] := by
    rw [hpay]; rfl
  have hallA : ¬ (s.cart.all (fun p => p.authorID ∈ pyInsert A s.payments)) = true := by
    rw [hinsA]
    intro h
    have := List.all_eq_true.1 h pB hpB
    rw [hpBa] at this
    simp at this
    exact hAB this.symm
  have hstep1 := confirm_author_payment_eq authors ok1 A s a hneA ha
  rw [hstep1, if_neg hallA]
  refine ⟨rfl, hinsA, ?_, ?_⟩
  · rw [show (⟨s.cart, pyInsert A s.payments⟩ : SessionState).payments =
      pyInsert A s.payments from rfl, hinsA]
    simp only [List.mem_singleton]
    exact fun h => hAB h.symm
  · rw [show (⟨s.cart, pyInsert A s.payments⟩ : SessionState) =
      ⟨s.cart, [A]⟩ from by rw [hinsA]]
    have hneB : ¬ ((⟨s.cart, [A]⟩ : SessionState).cart.filter
        (fun p => p.authorID == B)).isEmpty = true := by
      rw [List.isEmpty_iff]
      intro h
      have hmm : pB ∈ s.cart.filter (fun p => p.authorID == B) :=
        List.mem_filter.2 ⟨hpB, by simp [hpBa]⟩
      rw [show (⟨s.cart, [A]⟩ : SessionState).cart = s.cart from rfl] at h
      rw [h] at hmm
      exact absurd hmm (List.not_mem_nil pB)
    have hstep2 := confirm_author_payment_eq authors ok2 B ⟨s.cart, [A]⟩ b hneB hb
    have hBA : B ∉ ([A] : List Int) := by
      simp only [List.mem_singleton]
      exact fun h => hAB h.symm
    have hinsB : pyInsert B [A] = [A, B] := by
      unfold pyInsert
      rw [if_neg hBA]
      rfl
    have hallB : ((⟨s.cart, [A]⟩ : SessionState).cart.all
        (fun p => p.authorID ∈ pyInsert B (⟨s.cart, [A]⟩ : SessionState).payments)) = true := by
      apply List.all_eq_true.2
      intro p hp
      have hp' : p ∈ s.cart := hp
      have hmm : p.authorID ∈ ([A, B] : List Int) := by
        rcases hall p hp' with h | h <;> simp [h]
      rw [show (⟨s.cart, [A]⟩ : SessionState).payments = [A] from rfl, hinsB]
      simpa using hmm
    rw [hstep2, if_pos hallB]

/-- Witness for C4: a concrete two-item, two-vendor cart run through both
confirmations. -/
theorem two_vendor_split_C4_witness :
    (confirm_author_payment [⟨1, "А"⟩, ⟨2, "Б"⟩] (fun _ => true) 1
      ⟨[⟨11, 1, "a", 100, 0, "", false, none⟩,
        ⟨21, 2, "d", 400, 0, "", false, none⟩], []⟩).1.payments = [1] ∧
    (confirm_author_payment [⟨1, "А"⟩, ⟨2, "Б"⟩] (fun _ => true) 2
      (confirm_author_payment [⟨1, "А"⟩, ⟨2, "Б"⟩] (fun _ => true) 1
        ⟨[⟨11, 1, "a", 100, 0, "", false, none⟩,
          ⟨21, 2, "d", 400, 0, "", false, none⟩], []⟩).1).1 = ⟨[], []⟩ := by
  obtain ⟨hc, hp, hB, hreset⟩ :=
    two_vendor_split_C4 1 2 [⟨1, "А"⟩, ⟨2, "Б"⟩] (fun _ => true) (fun _ => true)
      ⟨[⟨11, 1, "a", 100, 0, "", false, none⟩,
        ⟨21, 2, "d", 400, 0, "", false, none⟩], []⟩
      (by decide) rfl
      (by decide)
      ⟨⟨11, 1, "a", 100, 0, "", false, none⟩, by simp, rfl⟩
      ⟨⟨21, 2, "d", 400, 0, "", false, none⟩, by simp, rfl⟩
      (by decide) (by decide)
  exact ⟨hp, hreset⟩

/-- Counterexample to C2. The state with an empty cart but vendor 1 still
marked paid is reachable: add one item of vendor 1 and one of vendor 2,
confirm vendor 1 per-vendor (vendor 2 stays unpaid, so no terminal reset),
then run the whole-cart `confirm_payment` — it empties the cart but leaves
`author_payments` untouched, violating the claimed invariant. -/
theorem payment_state_C2_counterexample :
    Reachable ⟨[], [1]⟩ ∧ ¬ paymentInv ⟨[], [1]⟩ := by
  constructor
  · have h1 := Reachable.add [⟨11, 1, "a", 100, 0, ""⟩] 11 false ⟨[], []⟩ Reachable.init
    have e1 : (⟨add_to_cart [⟨11, 1, "a", 100, 0, ""⟩] 11 false
        (⟨[], []⟩ : SessionState).cart, (⟨[], []⟩ : SessionState).payments⟩ : SessionState) =
        ⟨[⟨11, 1, "a", 100, 0, "", false, none⟩], []⟩ := by decide
    rw [e1] at h1
    have h2 := Reachable.add [⟨21, 2, "d", 400, 0, ""⟩] 21 false
      ⟨[⟨11, 1, "a", 100, 0, "", false, none⟩], []⟩ h1
    have e2 : (⟨add_to_cart [⟨21, 2, "d", 400, 0, ""⟩] 21 false
        (⟨[⟨11, 1, "a", 100, 0, "", false, none⟩], []⟩ : SessionState).cart,
        (⟨[⟨11, 1, "a", 100, 0, "", false, none⟩], []⟩ : SessionState).payments⟩ : SessionState) =
        ⟨[⟨11, 1, "a", 100, 0, "", false, none⟩,
          ⟨21, 2, "d", 400, 0, "", false, none⟩], []⟩ := by decide
    rw [e2] at h2
    have h3 := Reachable.confirmAuthor [⟨1, "А"⟩] (fun _ => true) 1
      ⟨[⟨11, 1, "a", 100, 0, "", false, none⟩,
        ⟨21, 2, "d", 400, 0, "", false, none⟩], []⟩ h2
    have e3 : (confirm_author_payment [⟨1, "А"⟩] (fun _ => true) 1
        ⟨[⟨11, 1, "a", 100, 0, "", false, none⟩,
          ⟨21, 2, "d", 400, 0, "", false, none⟩], []⟩).1 =
        ⟨[⟨11, 1, "a", 100, 0, "", false, none⟩,
          ⟨21, 2, "d", 400, 0, "", false, none⟩], [1]⟩ := by decide
    rw [e3] at h3
    have h4 := Reachable.confirm (fun _ => true)
      ⟨[⟨11, 1, "a", 100, 0, "", false, none⟩,
        ⟨21, 2, "d", 400, 0, "", false, none⟩], [1]⟩ h3
    have e4 : (confirm_payment (fun _ => true)
        ⟨[⟨11, 1, "a", 100, 0, "", false, none⟩,
          ⟨21, 2, "d", 400, 0, "", false, none⟩], [1]⟩).1 = ⟨[], [1]⟩ := by decide
    rw [e4] at h4
    exact h4
  · intro h
    obtain ⟨it, hit, -⟩ := h 1 (by simp)
    exact absurd hit (List.not_mem_nil it)

/-- C2 as amended. `clear_cart` does empty cart and payment state together,
and away from the whole-cart path the invariant holds (PaymentState only
holds vendors with cart items, and the per-vendor terminal reset empties
both); but the whole-cart `confirm_payment` empties only the cart and
leaves PaymentState exactly as it was. -/
theorem payment_state_C2_amended :
    (∀ s : SessionState, clear_cart s = ⟨[], []⟩) ∧
    (∀ (ok : Nat → Bool) (s : SessionState), s.cart ≠ [] →
      (confirm_payment ok s).1.cart = [] ∧
      (confirm_payment ok s).1.payments = s.payments) ∧
    (∀ s : SessionState, ReachableNoWholeCart s → paymentInv s) := by
  refine ⟨fun s => rfl, ?_, ?_⟩
  · intro ok s hne
    have hemp : ¬ s.cart.isEmpty = true := by simpa [List.isEmpty_iff] using hne
    rcases hcd : calculate_cart_with_promotions s.cart with ⟨t, ds⟩
    rcases hrl : recordLoop ok (ds.map (·.product.productID)) s.cart 0 with ⟨issued, sc, fc⟩
    simp [confirm_payment, hemp, hcd, hrl]
  · intro s hr
    induction hr with
    | init => intro a ha; exact absurd ha (List.not_mem_nil a)
    | add catalog pid wd s hs ih =>
      intro a ha
      obtain ⟨it, hit, hita⟩ := ih a ha
      refine ⟨it, ?_, hita⟩
      show it ∈ add_to_cart catalog pid wd s.cart
      unfold add_to_cart
      cases catalog.find? (fun p => p.productID == pid) with
      | none => exact hit
      | some p => exact List.mem_append_left _ hit
    | addLottery catalog pid s hs ih =>
      intro a ha
      obtain ⟨it, hit, hita⟩ := ih a ha
      refine ⟨it, ?_, hita⟩
      show it ∈ add_lottery_to_cart catalog pid s.cart
      unfold add_lottery_to_cart
      cases catalog.find? (fun p => p.productID == pid) with
      | none => exact hit
      | some p => exact List.mem_append_left _ hit
    | clear s hs ih =>
      intro a ha
      exact absurd ha (List.not_mem_nil a)
    | confirmAuthor authors ok aid s hs ih =>
      by_cases hemp : (s.cart.filter (fun p => p.authorID == aid)).isEmpty = true
      · rw [show (confirm_author_payment authors ok aid s).1 = s from by
          simp only [confirm_author_payment]; rw [if_pos hemp]]
        exact ih
      · cases hf : authors.find? (fun x => x.authorID == aid) with
        | none =>
          rw [show (confirm_author_payment authors ok aid s).1 = s from by
            simp only [confirm_author_payment]; rw [if_neg hemp, hf]]
          exact ih
        | some a =>
          rw [confirm_author_payment_eq authors ok aid s a hemp hf]
          by_cases hall : (s.cart.all (fun p => p.authorID ∈ pyInsert aid s.payments)) = true
          · rw [if_pos hall]
            intro x hx
            exact absurd hx (List.not_mem_nil x)
          · rw [if_neg hall]
            intro x hx
            rcases (mem_pyInsert x aid s.payments).1 hx with hmem | rfl
            · exact ih x hmem
            · have hne : s.cart.filter (fun p => p.authorID == x) ≠ [] := by
                simpa [List.isEmpty_iff] using hemp
              rcases hflt : s.cart.filter (fun p => p.authorID == x) with _ | ⟨it, rest⟩
              · exact absurd hflt hne
              · have hit : it ∈ s.cart.filter (fun p => p.authorID == x) := by
                  rw [hflt]; simp
                refine ⟨it, List.mem_of_mem_filter hit, ?_⟩
                have := List.of_mem_filter hit
                simpa using this

/-- Witness for C2 (amended): the whole-cart confirmation of a one-item
cart with vendor 5 already marked paid leaves the stale paid flag in
place. -/
theorem payment_state_C2_amended_witness :
    (confirm_payment (fun _ => true)
      ⟨[⟨11, 1, "a", 100, 0, "", false, none⟩], [5]⟩).1.cart = [] ∧
    (confirm_payment (fun _ => true)
      ⟨[⟨11, 1, "a", 100, 0, "", false, none⟩], [5]⟩).1.payments = [5] :=
  payment_state_C2_amended.2.1 (fun _ => true)
    ⟨[⟨11, 1, "a", 100, 0, "", false, none⟩], [5]⟩ (by decide)

theorem string_ne_empty_iff (s : String) : s ≠ "" ↔ s.data ≠ [] := by
  constructor
  · intro h hd
    cases s
    simp_all
  · intro hd h
    subst h
    exact hd rfl

/-- C8. With the spreadsheet handle absent, or with every remote call
raising, each gateway read returns the empty sequence and the write returns
`False` — the embeddings are total functions, mirroring the catch-all
`except` blocks through which no exception escapes; in particular
`get_products_by_author` right after `clear_all_caches` under a read
failure is empty rather than an error. -/
theorem gateway_degrades_C8 :
    ∀ sp : Option Backend,
      (sp = none ∨ ∃ b e₁ e₂ e₃ e₄, sp = some b ∧ b.authorsWs = .error e₁ ∧
        b.productsWs = .error e₂ ∧ b.transactionsWs = .error e₃ ∧
        b.appendOk = .error e₄) →
      ∀ (c : CacheState) (aid : Int) (start : Option String),
        get_authors sp (clear_all_caches c).authorsCache
          (clear_all_caches c).authorsFresh = [] ∧
        get_all_products sp (clear_all_caches c).productsCache
          (clear_all_caches c).productsFresh = [] ∧
        get_products_by_author sp (clear_all_caches c).productsCache
          (clear_all_caches c).productsFresh aid = [] ∧
        get_transactions_from_date sp start = [] ∧
        record_transaction sp = false := by
  intro sp hfail c aid start
  rcases hfail with rfl | ⟨b, e₁, e₂, e₃, e₄, rfl, h₁, h₂, h₃, h₄⟩
  · refine ⟨rfl, rfl, rfl, ?_, rfl⟩
    cases start <;> rfl
  · refine ⟨?_, ?_, ?_, ?_, ?_⟩
    · simp [clear_all_caches, get_authors, get_authors_body, h₁]
    · simp [clear_all_caches, get_all_products, fetchProducts, h₂]
    · simp [clear_all_caches, get_products_by_author, get_all_products, fetchProducts, h₂]
    · cases start <;> simp [get_transactions_from_date, h₃]
    · simp [record_transaction, h₃]

/-- Witness for C8: a backend whose every call raises degrades all four
reads to `[]` and the write to `false`. -/
theorem gateway_degrades_C8_witness :
    get_authors (some ⟨.error "boom", .error "boom", .error "boom", .error "boom"⟩)
      (clear_all_caches ⟨none, false, none, false⟩).authorsCache
      (clear_all_caches ⟨none, false, none, false⟩).authorsFresh = [] ∧
    get_all_products (some ⟨.error "boom", .error "boom", .error "boom", .error "boom"⟩)
      (clear_all_caches ⟨none, false, none, false⟩).productsCache
      (clear_all_caches ⟨none, false, none, false⟩).productsFresh = [] ∧
    get_products_by_author
      (some ⟨.error "boom", .error "boom", .error "boom", .error "boom"⟩)
      (clear_all_caches ⟨none, false, none, false⟩).productsCache
      (clear_all_caches ⟨none, false, none, false⟩).productsFresh 7 = [] ∧
    get_transactions_from_date
      (some ⟨.error "boom", .error "boom", .error "boom", .error "boom"⟩)
      (some "2024-01-01") = [] ∧
    record_transaction
      (some ⟨.error "boom", .error "boom", .error "boom", .error "boom"⟩) = false :=
  gateway_degrades_C8
    (some ⟨.error "boom", .error "boom", .error "boom", .error "boom"⟩)
    (Or.inr ⟨_, "boom", "boom", "boom", "boom", rfl, rfl, rfl, rfl, rfl⟩)
    ⟨none, false, none, false⟩ 7 (some "2024-01-01")

/-- C10. With no start date `get_transactions_from_date` returns the whole
ledger unchanged (malformed rows included); with a start date a record
survives only if its `Timestamp` is nonempty and the text before the first
space parses as `%Y-%m-%d` — empty or unparsable timestamps are silently
dropped — and every well-formed record dated on or after a well-formed
start date is kept. -/
theorem date_filter_drops_malformed_C10 :
    ∀ (b : Backend) (allTx : List Transaction),
      b.transactionsWs = .ok allTx →
      get_transactions_from_date (some b) none = allTx ∧
      (∀ sd : String,
        (∀ t ∈ get_transactions_from_date (some b) (some sd),
          t ∈ allTx ∧ t.timestamp ≠ "" ∧ (parseDate (pyFirstField t.timestamp)).isSome) ∧
        (∀ t ∈ allTx, t.timestamp = "" ∨ parseDate (pyFirstField t.timestamp) = none →
          t ∉ get_transactions_from_date (some b) (some sd)) ∧
        (∀ t ∈ allTx, ∀ td sdd, t.timestamp ≠ "" →
          parseDate (pyFirstField t.timestamp) = some td →
          parseDate sd = some sdd → dateLE sdd td = true →
          t ∈ get_transactions_from_date (some b) (some sd))) := by
  intro b allTx hok
  have hunf : ∀ sd : String, get_transactions_from_date (some b) (some sd) =
      allTx.filter (fun t =>
        !t.timestamp.data.isEmpty &&
        (match parseDate (pyFirstField t.timestamp), parseDate sd with
         | some td, some sdd => dateLE sdd td
         | _, _ => false)) := by
    intro sd
    simp [get_transactions_from_date, hok]
  refine ⟨by simp [get_transactions_from_date, hok], ?_⟩
  intro sd
  refine ⟨?_, ?_, ?_⟩
  · intro t ht
    rw [hunf sd] at ht
    have hmem := List.mem_of_mem_filter ht
    have hcond := List.of_mem_filter ht
    rw [Bool.and_eq_true] at hcond
    obtain ⟨hne, hmatch⟩ := hcond
    refine ⟨hmem, ?_, ?_⟩
    · rw [string_ne_empty_iff]
      intro h
      rw [h] at hne
      simp at hne
    · cases hp : parseDate (pyFirstField t.timestamp) with
      | none => rw [hp] at hmatch; simp at hmatch
      | some td => rfl
  · intro t _ hbad hmem
    rw [hunf sd] at hmem
    have hcond := List.of_mem_filter hmem
    rw [Bool.and_eq_true] at hcond
    obtain ⟨hne, hmatch⟩ := hcond
    rcases hbad with h | h
    · rw [h] at hne
      simp at hne
    · rw [h] at hmatch
      simp at hmatch
  · intro t ht td sdd hne hp hsp hle
    rw [hunf sd]
    refine List.mem_filter.2 ⟨ht, ?_⟩
    rw [Bool.and_eq_true]
    constructor
    · rw [string_ne_empty_iff] at hne
      simpa using hne
    · rw [hp, hsp]
      exact hle

/-- Witness for C10: a five-row ledger with an empty, a malformed and a
three-digit-year timestamp among two well-formed ones, filtered from the
space-padded start date `2024-05- 1` (which `%d` accepts): the empty,
malformed and short-year rows are dropped, the row dated on the boundary
is kept. -/
theorem date_filter_drops_malformed_C10_witness :
    get_transactions_from_date
      (some ⟨.ok [], .ok [], .ok
        [⟨1, 11, 1, "cash", 100, ""⟩,
         ⟨2, 12, 1, "cash", 200, "oops"⟩,
         ⟨3, 13, 1, "cash", 300, "2024-04-30 10:00:00"⟩,
         ⟨4, 14, 1, "cash", 400, "2024-05-01 09:30:00"⟩,
         ⟨5, 15, 1, "cash", 500, "999-06-01 10:00:00"⟩], .ok ()⟩) none =
      [⟨1, 11, 1, "cash", 100, ""⟩,
       ⟨2, 12, 1, "cash", 200, "oops"⟩,
       ⟨3, 13, 1, "cash", 300, "2024-04-30 10:00:00"⟩,
       ⟨4, 14, 1, "cash", 400, "2024-05-01 09:30:00"⟩,
       ⟨5, 15, 1, "cash", 500, "999-06-01 10:00:00"⟩] ∧
    (⟨1, 11, 1, "cash", 100, ""⟩ : Transaction) ∉
      get_transactions_from_date
        (some ⟨.ok [], .ok [], .ok
          [⟨1, 11, 1, "cash", 100, ""⟩,
           ⟨2, 12, 1, "cash", 200, "oops"⟩,
           ⟨3, 13, 1, "cash", 300, "2024-04-30 10:00:00"⟩,
           ⟨4, 14, 1, "cash", 400, "2024-05-01 09:30:00"⟩,
           ⟨5, 15, 1, "cash", 500, "999-06-01 10:00:00"⟩], .ok ()⟩)
        (some "2024-05- 1") ∧
    (⟨5, 15, 1, "cash", 500, "999-06-01 10:00:00"⟩ : Transaction) ∉
      get_transactions_from_date
        (some ⟨.ok [], .ok [], .ok
          [⟨1, 11, 1, "cash", 100, ""⟩,
           ⟨2, 12, 1, "cash", 200, "oops"⟩,
           ⟨3, 13, 1, "cash", 300, "2024-04-30 10:00:00"⟩,
           ⟨4, 14, 1, "cash", 400, "2024-05-01 09:30:00"⟩,
           ⟨5, 15, 1, "cash", 500, "999-06-01 10:00:00"⟩], .ok ()⟩)
        (some "2024-05- 1") ∧
    (⟨4, 14, 1, "cash", 400, "2024-05-01 09:30:00"⟩ : Transaction) ∈
      get_transactions_from_date
        (some ⟨.ok [], .ok [], .ok
          [⟨1, 11, 1, "cash", 100, ""⟩,
           ⟨2, 12, 1, "cash", 200, "oops"⟩,
           ⟨3, 13, 1, "cash", 300, "2024-04-30 10:00:00"⟩,
           ⟨4, 14, 1, "cash", 400, "2024-05-01 09:30:00"⟩,
           ⟨5, 15, 1, "cash", 500, "999-06-01 10:00:00"⟩], .ok ()⟩)
        (some "2024-05- 1") := by
  have h := date_filter_drops_malformed_C10
    ⟨.ok [], .ok [], .ok
      [⟨1, 11, 1, "cash", 100, ""⟩,
       ⟨2, 12, 1, "cash", 200, "oops"⟩,
       ⟨3, 13, 1, "cash", 300, "2024-04-30 10:00:00"⟩,
       ⟨4, 14, 1, "cash", 400, "2024-05-01 09:30:00"⟩,
       ⟨5, 15, 1, "cash", 500, "999-06-01 10:00:00"⟩], .ok ()⟩
    [⟨1, 11, 1, "cash", 100, ""⟩,
     ⟨2, 12, 1, "cash", 200, "oops"⟩,
     ⟨3, 13, 1, "cash", 300, "2024-04-30 10:00:00"⟩,
     ⟨4, 14, 1, "cash", 400, "2024-05-01 09:30:00"⟩,
     ⟨5, 15, 1, "cash", 500, "999-06-01 10:00:00"⟩] rfl
  refine ⟨h.1, ?_, ?_, ?_⟩
  · exact (h.2 "2024-05- 1").2.1 ⟨1, 11, 1, "cash", 100, ""⟩ (by simp) (Or.inl rfl)
  · exact (h.2 "2024-05- 1").2.1 ⟨5, 15, 1, "cash", 500, "999-06-01 10:00:00"⟩
      (by simp) (Or.inr (by decide))
  · exact (h.2 "2024-05- 1").2.2 ⟨4, 14, 1, "cash", 400, "2024-05-01 09:30:00"⟩
      (by simp) (2024, 5, 1) (2024, 5, 1) (by decide) (by decide) (by decide) (by decide)

theorem lexLt_irrefl : ∀ l : List Char, lexLt l l = false := by
  intro l
  induction l with
  | nil => rfl
  | cons c cs ih => simp [lexLt, ih]

theorem lexLt_asymm : ∀ l₁ l₂ : List Char, lexLt l₁ l₂ = true → lexLt l₂ l₁ = false := by
  intro l₁
  induction l₁ with
  | nil =>
    intro l₂ h
    cases l₂ with
    | nil => rfl
    | cons b bs => rfl
  | cons a as ih =>
    intro l₂ h
    cases l₂ with
    | nil => simp [lexLt] at h
    | cons b bs =>
      rcases lt_trichotomy a b with h1 | rfl | h1
      · simp only [lexLt, if_neg (lt_asymm h1), if_pos h1]
      · simp only [lexLt, lt_irrefl, if_neg (lt_irrefl a)] at h ⊢
        exact ih bs h
      · simp only [lexLt, if_neg (lt_asymm h1), if_pos h1] at h
        cases h

theorem lexLt_compl_trans :
    ∀ l₁ l₂ l₃ : List Char, lexLt l₁ l₂ = false → lexLt l₂ l₃ = false →
      lexLt l₁ l₃ = false := by
  intro l₁
  induction l₁ with
  | nil =>
    intro l₂ l₃ h1 h2
    cases l₂ with
    | nil =>
      cases l₃ with
      | nil => rfl
      | cons c cs => simp [lexLt] at h2
    | cons b bs => simp [lexLt] at h1
  | cons a as ih =>
    intro l₂ l₃ h1 h2
    cases l₂ with
    | nil =>
      cases l₃ with
      | nil => rfl
      | cons c cs => simp [lexLt] at h2
    | cons b bs =>
      cases l₃ with
      | nil => rfl
      | cons c cs =>
        simp only [lexLt] at h1 h2 ⊢
        by_cases hab : a < b
        · rw [if_pos hab] at h1
          cases h1
        · rw [if_neg hab] at h1
          by_cases hbc : b < c
          · rw [if_pos hbc] at h2
            cases h2
          · rw [if_neg hbc] at h2
            have hba : b ≤ a := not_lt.1 hab
            have hcb : c ≤ b := not_lt.1 hbc
            have hac : ¬ a < c := not_lt.2 (le_trans hcb hba)
            rw [if_neg hac]
            by_cases hca : c < a
            · rw [if_pos hca]
            · rw [if_neg hca]
              have hac' : a = c := le_antisymm (not_lt.1 hca) (le_trans hcb hba)
              have hab' : a = b := le_antisymm (by rw [hac']; exact hcb) hba
              subst hab'
              subst hac'
              rw [if_neg (lt_irrefl a)] at h1 h2
              exact ih bs cs h1 h2

theorem digitChar_lt_iff {a b : Nat} (ha : a < 10) (hb : b < 10) :
    digitChar a < digitChar b ↔ a < b := by
  interval_cases a <;> interval_cases b <;> decide

theorem lexLt_digit_cons {a b : Nat} (ha : a < 10) (hb : b < 10)
    (r1 r2 : List Char) :
    lexLt (digitChar a :: r1) (digitChar b :: r2) =
      if a < b then true else if b < a then false else lexLt r1 r2 := by
  simp only [lexLt]
  by_cases hab : a < b
  · rw [if_pos ((digitChar_lt_iff ha hb).2 hab), if_pos hab]
  · rw [if_neg (fun h => hab ((digitChar_lt_iff ha hb).1 h)), if_neg hab]
    by_cases hba : b < a
    · rw [if_pos ((digitChar_lt_iff hb ha).2 hba), if_pos hba]
    · rw [if_neg (fun h => hba ((digitChar_lt_iff hb ha).1 h)), if_neg hba]

theorem lexLt_same_cons (c : Char) (r1 r2 : List Char) :
    lexLt (c :: r1) (c :: r2) = lexLt r1 r2 := by
  simp [lexLt, lt_irrefl]

theorem lexLt_pad2 {m n : Nat} (hm : m < 100) (hn : n < 100) (r1 r2 : List Char) :
    lexLt (pad2 m ++ r1) (pad2 n ++ r2) = cmp2 m n (lexLt r1 r2) := by
  simp only [pad2, cmp2, List.cons_append, List.nil_append]
  rw [lexLt_digit_cons (by omega) (by omega), lexLt_digit_cons (by omega) (by omega)]
  split_ifs <;> first | rfl | omega

theorem lexLt_pad4 {m n : Nat} (hm : m < 10000) (hn : n < 10000) (r1 r2 : List Char) :
    lexLt (pad4 m ++ r1) (pad4 n ++ r2) = cmp2 m n (lexLt r1 r2) := by
  simp only [pad4, cmp2, List.cons_append, List.nil_append]
  rw [lexLt_digit_cons (by omega) (by omega), lexLt_digit_cons (by omega) (by omega),
    lexLt_digit_cons (by omega) (by omega), lexLt_digit_cons (by omega) (by omega)]
  split_ifs <;> first | rfl | omega

theorem cmp2_eq_true_iff (x y : Nat) (k : Bool) :
    cmp2 x y k = true ↔ (x < y ∨ (x = y ∧ k = true)) := by
  unfold cmp2
  rcases Nat.lt_trichotomy x y with h | h | h
  · rw [if_pos h]
    exact iff_of_true rfl (Or.inl h)
  · subst h
    rw [if_neg (lt_irrefl x), if_neg (lt_irrefl x)]
    simp
  · rw [if_neg (Nat.lt_asymm h), if_pos h]
    refine iff_of_false (by simp) ?_
    rintro (h2 | ⟨rfl, -⟩)
    · omega
    · omega

/-- On two fixed-width `YYYY-MM-DD HH:MM:SS` strings, the lexicographic
string comparison is exactly the chronological comparison. -/
theorem renderTs_lexLt (t1 t2 : TimeStamp) (h1 : widthOK t1) (h2 : widthOK t2) :
    lexLt (renderTs t1) (renderTs t2) = true ↔ chronLt t1 t2 := by
  obtain ⟨hy1, hmo1, hd1, hh1, hmi1, hs1⟩ := h1
  obtain ⟨hy2, hmo2, hd2, hh2, hmi2, hs2⟩ := h2
  have e6 : lexLt (pad2 t1.second) (pad2 t2.second) =
      cmp2 t1.second t2.second false := by
    rw [show pad2 t1.second = pad2 t1.second ++ ([] : List Char)
        from (List.append_nil _).symm,
      show pad2 t2.second = pad2 t2.second ++ ([] : List Char)
        from (List.append_nil _).symm,
      lexLt_pad2 hs1 hs2]
    rfl
  have e1 : lexLt (renderTs t1) (renderTs t2) =
      cmp2 t1.year t2.year (cmp2 t1.month t2.month (cmp2 t1.day t2.day
        (cmp2 t1.hour t2.hour (cmp2 t1.minute t2.minute
          (cmp2 t1.second t2.second false))))) := by
    unfold renderTs
    rw [lexLt_pad4 hy1 hy2, lexLt_same_cons, lexLt_pad2 hmo1 hmo2, lexLt_same_cons,
      lexLt_pad2 hd1 hd2, lexLt_same_cons, lexLt_pad2 hh1 hh2, lexLt_same_cons,
      lexLt_pad2 hmi1 hmi2, lexLt_same_cons, e6]
  rw [e1]
  unfold chronLt
  rw [cmp2_eq_true_iff, cmp2_eq_true_iff, cmp2_eq_true_iff, cmp2_eq_true_iff,
    cmp2_eq_true_iff, cmp2_eq_true_iff]
  simp

/-- C9. `get_author_transactions_detail` returns the selected author's
transactions (titles resolved through the cached full product list) sorted
descending by the stored timestamp string under lexicographic comparison;
and on fixed-width `YYYY-MM-DD HH:MM:SS` timestamps that lexicographic
order is exactly chronological order, so the listing is newest-first
whenever every stored timestamp has the fixed-width format. -/
theorem vendor_detail_sorted_C9 :
    (∀ (sp : Option Backend) (pcache : Option (List Product)) (pfresh : Bool)
        (aid : Int) (start : Option String),
      (get_author_transactions_detail sp pcache pfresh aid start).Pairwise
        (fun a b => lexLt a.timestamp.data b.timestamp.data = false) ∧
      List.Perm (get_author_transactions_detail sp pcache pfresh aid start)
        (((get_transactions_from_date sp start).filter
          (fun t => t.authorID == aid)).map
          (detailOf (get_all_products sp pcache pfresh))) ∧
      (∀ d ∈ get_author_transactions_detail sp pcache pfresh aid start,
        ∃ t ∈ get_transactions_from_date sp start, t.authorID = aid ∧
          d = detailOf (get_all_products sp pcache pfresh) t)) ∧
    (∀ t1 t2 : TimeStamp, widthOK t1 → widthOK t2 →
      (lexLt (renderTs t1) (renderTs t2) = true ↔ chronLt t1 t2)) ∧
    (∀ (sp : Option Backend) (pcache : Option (List Product)) (pfresh : Bool)
        (aid : Int) (start : Option String) (f : TransactionDetail → TimeStamp),
      (∀ d ∈ get_author_transactions_detail sp pcache pfresh aid start,
        widthOK (f d) ∧ d.timestamp.data = renderTs (f d)) →
      (get_author_transactions_detail sp pcache pfresh aid start).Pairwise
        (fun a b => ¬ chronLt (f a) (f b))) := by
  have hsorted : ∀ (sp : Option Backend) (pcache : Option (List Product))
      (pfresh : Bool) (aid : Int) (start : Option String),
      (get_author_transactions_detail sp pcache pfresh aid start).Pairwise
        (fun a b => lexLt a.timestamp.data b.timestamp.data = false) := by
    intro sp pcache pfresh aid start
    simp only [get_author_transactions_detail]
    exact sortDescBy_pairwise
      (fun a b : TransactionDetail => lexLt a.timestamp.data b.timestamp.data)
      (fun a b h => lexLt_asymm _ _ h)
      (fun a b c ha hb => lexLt_compl_trans _ _ _ ha hb) _
  refine ⟨fun sp pcache pfresh aid start => ⟨hsorted sp pcache pfresh aid start, ?_, ?_⟩,
    renderTs_lexLt, ?_⟩
  · simp only [get_author_transactions_detail]
    exact sortDescBy_perm _ _
  · intro d hd
    have hperm : List.Perm (get_author_transactions_detail sp pcache pfresh aid start)
        (((get_transactions_from_date sp start).filter (fun t => t.authorID == aid)).map
          (detailOf (get_all_products sp pcache pfresh))) := by
      simp only [get_author_transactions_detail]
      exact sortDescBy_perm _ _
    have hd' := hperm.mem_iff.1 hd
    obtain ⟨t, htf, rfl⟩ := List.mem_map.1 hd'
    refine ⟨t, List.mem_of_mem_filter htf, ?_, rfl⟩
    have := List.of_mem_filter htf
    simpa using this
  · intro sp pcache pfresh aid start f hfmt
    refine List.Pairwise.imp_of_mem ?_ (hsorted sp pcache pfresh aid start)
    intro a b ha hb hab hchron
    obtain ⟨hwa, hra⟩ := hfmt a ha
    obtain ⟨hwb, hrb⟩ := hfmt b hb
    have := (renderTs_lexLt (f a) (f b) hwa hwb).2 hchron
    rw [← hra, ← hrb] at this
    rw [this] at hab
    cases hab

/-- Witness for C9: the format clause applied to two concrete stamps — the
earlier date compares lexicographically below the later one. -/
theorem vendor_detail_sorted_C9_witness :
    lexLt (renderTs ⟨2024, 4, 30, 10, 0, 0⟩) (renderTs ⟨2024, 5, 1, 9, 30, 0⟩) = true := by
  refine (vendor_detail_sorted_C9.2.1 ⟨2024, 4, 30, 10, 0, 0⟩ ⟨2024, 5, 1, 9, 30, 0⟩
    ?_ ?_).2 ?_
  · exact ⟨by decide, by decide, by decide, by decide, by decide, by decide⟩
  · exact ⟨by decide, by decide, by decide, by decide, by decide, by decide⟩
  · exact Or.inr ⟨rfl, Or.inl (by decide)⟩

end BookFair
